import Mathlib

/-!
Verification development for the in-browser memory and automation core of the
awt-founder extension.  The JavaScript source is shallowly embedded: JS `Map`s
and plain objects become association lists over `String` keys, JS `Set`s become
duplicate-free `String` lists, `Date.now()` becomes an explicit `now : Nat`
parameter, and the randomly generated identifiers become explicit parameters
(assumed fresh where the proofs need it, matching the collision-free design of
`node_<time36>_<random36>` ids).  Numbers are `Rat`/`Int`/`Nat`; the 32-bit
JavaScript rolling hash is carried out exactly with `Int` arithmetic wrapped at
2^32.
-/

-- ============================================================================
-- Association lists standing for JS Map / plain-object dictionaries
-- ============================================================================

/-- A JS `Map` (or plain object used as a dictionary) with `String` keys:
an insertion-ordered association list with unique keys. -/
abbrev Jmap (α : Type) := List (String × α)

namespace Jmap

/-- `m.get(k)` / `m[k]`. -/
def lookup {α : Type} : Jmap α → String → Option α
  | [], _ => none
  | (k', v) :: rest, k => if k' = k then some v else lookup rest k

/-- `m.set(k, v)` / `m[k] = v`: replace in place if the key is present,
otherwise append (JS Maps and objects keep insertion order). -/
def set {α : Type} : Jmap α → String → α → Jmap α
  | [], k, v => [(k, v)]
  | (k', v') :: rest, k, v =>
    if k' = k then (k, v) :: rest else (k', v') :: set rest k v

/-- `m.delete(k)` / `delete m[k]`. -/
def del {α : Type} : Jmap α → String → Jmap α
  | [], _ => []
  | (k', v') :: rest, k =>
    if k' = k then del rest k else (k', v') :: del rest k

/-- `m.has(k)` / `k in m`. -/
def hasKey {α : Type} (m : Jmap α) (k : String) : Bool :=
  (m.lookup k).isSome

/-- The keys in insertion order. -/
def keys {α : Type} (m : Jmap α) : List String :=
  m.map Prod.fst

/-- The values in insertion order (`m.values()`). -/
def values {α : Type} (m : Jmap α) : List α :=
  m.map Prod.snd

/-- Apply a function to every stored value, keeping keys and order. -/
def mapVals {α β : Type} (f : α → β) (m : Jmap α) : Jmap β :=
  m.map (fun p => (p.1, f p.2))

end Jmap

/-- A JS `Set` of strings: an insertion-ordered duplicate-free list. -/
abbrev Jset := List String

namespace Jset

/-- `s.add(x)`. -/
def add (s : Jset) (x : String) : Jset :=
  if x ∈ s then s else s ++ [x]

/-- `s.delete(x)`. -/
def remove (s : Jset) (x : String) : Jset :=
  s.filter (fun y => ¬ y = x)

end Jset

/-- JS `x || d` for an optional number (`0` is falsy). -/
def jsOrRat (o : Option Rat) (d : Rat) : Rat :=
  match o with
  | some v => if v = 0 then d else v
  | none => d

/-- JS `x || d` for an optional natural (`0` is falsy). -/
def jsOrNat (o : Option Nat) (d : Nat) : Nat :=
  match o with
  | some v => if v = 0 then d else v
  | none => d

/-- JS `x || d` for an optional string (`""` is falsy). -/
def jsOrStr (o : Option String) (d : String) : String :=
  match o with
  | some v => if v = "" then d else v
  | none => d

/-- Kernel-computable rational addition (definitionally reducible, unlike the
instance addition; proven equal to it below). -/
def ratAdd (a b : Rat) : Rat :=
  mkRat (a.num * b.den + b.num * a.den) (a.den * b.den)

/-- Kernel-computable rational subtraction. -/
def ratSub (a b : Rat) : Rat :=
  mkRat (a.num * b.den - b.num * a.den) (a.den * b.den)

/-- Kernel-computable rational multiplication. -/
def ratMul (a b : Rat) : Rat :=
  mkRat (a.num * b.num) (a.den * b.den)

/-- Kernel-computable rational division. -/
def ratDiv (a b : Rat) : Rat :=
  if b.num < 0 then mkRat (-(a.num * b.den)) (a.den * b.num.natAbs)
  else mkRat (a.num * b.den) (a.den * b.num.natAbs)

/-- ASCII lower-casing of a character (model of `toLowerCase`). -/
def charLower (c : Char) : Char :=
  if 'A' ≤ c ∧ c ≤ 'Z' then Char.ofNat (c.toNat + 32) else c

/-- ASCII lower-casing of a string (model of `s.toLowerCase()`). -/
def strLower (s : String) : String :=
  String.mk (s.toList.map charLower)

/-- `s.slice(0, n)` on ASCII strings. -/
def strTake (n : Nat) (s : String) : String :=
  String.mk (s.toList.take n)

/-- An ASCII whitespace character (model of the characters `trim` strips). -/
def isSpaceChar (c : Char) : Bool :=
  c = ' ' || c = '\t' || c = '\n' || c = '\r'

/-- `s.trim()` on ASCII strings. -/
def strTrim (s : String) : String :=
  String.mk (((s.toList.dropWhile isSpaceChar).reverse.dropWhile isSpaceChar).reverse)

/-- Substring scan backing `jsIncludes`. -/
def listIncludesGo (needle : List Char) : List Char → Bool
  | [] => needle.isEmpty
  | c :: rest => needle.isPrefixOf (c :: rest) || listIncludesGo needle rest

/-- Stable insertion preserving earlier elements at ties. -/
def insertSorted {α : Type} (le : α → α → Bool) (x : α) : List α → List α
  | [] => [x]
  | y :: rest => if le y x then y :: insertSorted le x rest else x :: y :: rest

/-- A stable sort by a total boolean preorder (models `Array.prototype.sort`,
which is stable, under a consistent comparator). -/
def stableSort {α : Type} (le : α → α → Bool) (l : List α) : List α :=
  l.foldl (fun acc x => insertSorted le x acc) []

/-- Wrap an integer into signed 32-bit range, as JS `x & x` (ToInt32) does. -/
def wrap32 (n : Int) : Int :=
  (n + 2147483648) % 4294967296 - 2147483648

/-- One step of the rolling hash `hash = ((hash << 5) - hash) + char; hash &= hash`. -/
def jsHashStep (h : Int) (c : Char) : Int :=
  wrap32 (wrap32 (h * 32) - h + c.toNat)

/-- The 32-bit rolling string hash used by `MemoryGraph._hashContent`. -/
def jsHash (s : String) : Int :=
  s.toList.foldl jsHashStep 0

/-- Digit characters for base-36 rendering. -/
def base36Digit (n : Nat) : Char :=
  "0123456789abcdefghijklmnopqrstuvwxyz".toList.getD n '0'

def natBase36Go : Nat → Nat → List Char → List Char
  | 0, _, acc => acc
  | fuel + 1, n, acc =>
    if n = 0 then acc else natBase36Go fuel (n / 36) (base36Digit (n % 36) :: acc)

/-- Base-36 rendering of a natural number (JS `n.toString(36)` for `n ≥ 0`). -/
def natBase36 (n : Nat) : String :=
  if n = 0 then "0" else String.mk (natBase36Go n n [])

/-- JS `n.toString(36)` for a possibly negative 32-bit integer. -/
def intBase36 (n : Int) : String :=
  if n < 0 then "-" ++ natBase36 n.natAbs else natBase36 n.toNat

/-- A minimal model of `JSON.stringify` on a string value (quote and escape). -/
def jsonQuote (s : String) : String :=
  "\"" ++ String.join (s.toList.map (fun c =>
    if c = '"' then "\\\""
    else if c = '\\' then "\\\\"
    else if c = '\n' then "\\n"
    else if c = '\r' then "\\r"
    else if c = '\t' then "\\t"
    else String.mk [c])) ++ "\""

/-- `MemoryGraph._hashContent`: the rolling hash of `type + ":" + JSON.stringify(content)`,
rendered in base 36.  Contents are strings in this embedding. -/
def hashContent (type content : String) : String :=
  intBase36 (jsHash (type ++ ":" ++ jsonQuote content))

-- ============================================================================
-- Memory graph data model (src memory-graph module)
-- ============================================================================

/-- The fixed metadata block every `MemoryNode` carries
(`createdAt`, `updatedAt`, `accessCount`, `lastAccessedAt` plus free-form keys). -/
structure NodeMeta where
  createdAt : Nat
  updatedAt : Nat
  accessCount : Nat
  lastAccessedAt : Option Nat
  extra : List (String × String)
  deriving DecidableEq, Repr

/-- The `metadata` argument accepted by the `MemoryNode` constructor and
`MemoryGraph.addNode`: the typed keys the constructor reads, plus free-form
keys that are spread into the stored metadata. -/
structure MetaArg where
  importance : Option Rat := none
  confidence : Option Rat := none
  source : Option String := none
  platform : Option String := none
  sessionId : Option String := none
  extra : List (String × String) := []
  deriving DecidableEq, Repr

structure MemoryNode where
  id : String
  type : String
  content : String
  metadata : NodeMeta
  importance : Rat
  confidence : Rat
  decay : Rat
  embedding : Option (List Rat)
  source : String
  platform : String
  sessionId : Option String
  deriving DecidableEq, Repr

namespace MemoryNode

/-- The `MemoryNode` constructor.  The generated random id and `Date.now()`
are explicit parameters.  The stored metadata spreads the free-form keys and
then overwrites `createdAt`/`updatedAt`/`accessCount`/`lastAccessedAt`. -/
def create (type content : String) (arg : MetaArg) (newId : String) (now : Nat) : MemoryNode where
  id := newId
  type := type
  content := content
  metadata :=
    { createdAt := now
      updatedAt := now
      accessCount := 0
      lastAccessedAt := none
      extra := arg.extra }
  importance := jsOrRat arg.importance (mkRat 1 2)
  confidence := jsOrRat arg.confidence (mkRat 4 5)
  decay := 1
  embedding := none
  source := jsOrStr arg.source "unknown"
  platform := jsOrStr arg.platform "unknown"
  sessionId := match arg.sessionId with
    | some s => if s = "" then none else some s
    | none => none

/-- `MemoryNode.touch`: bump access count, record the access time, and boost
decay by 0.1 clamped to 1.0. -/
def touch (n : MemoryNode) (now : Nat) : MemoryNode :=
  { n with
    metadata :=
      { n.metadata with
        accessCount := n.metadata.accessCount + 1
        lastAccessedAt := some now
        updatedAt := now }
    decay := min 1 (ratAdd n.decay (mkRat 1 10)) }

/-- `MemoryNode.updateContent`. -/
def updateContent (n : MemoryNode) (newContent : String) (now : Nat) : MemoryNode :=
  { n with content := newContent, metadata := { n.metadata with updatedAt := now } }

/-- The free-form part of a stored metadata block, retyped as a constructor
argument (used by `fromJSON`, which passes the stored metadata back through the
constructor; the constructor overwrites all the typed keys it reads). -/
def metaArgOfMeta (m : NodeMeta) : MetaArg :=
  { extra := m.extra }

/-- `MemoryNode.fromJSON`: rebuilds a node from its serialized form by calling
the constructor with the serialized metadata and then restoring the scalar
fields.  Note the constructor overwrites `createdAt`/`updatedAt`/`accessCount`/
`lastAccessedAt` in the rebuilt metadata with load-time values. -/
def fromJSON (j : MemoryNode) (now : Nat) : MemoryNode :=
  let node := create j.type j.content (metaArgOfMeta j.metadata) j.id now
  { node with
    id := j.id
    importance := j.importance
    confidence := j.confidence
    decay := j.decay
    embedding := j.embedding
    source := j.source
    platform := j.platform
    sessionId := j.sessionId }

end MemoryNode

/-- The `metadata` argument accepted by the `MemoryEdge` constructor. -/
structure EdgeMetaArg where
  weight : Option Rat := none
  bidirectional : Option Bool := none
  extra : List (String × String) := []
  deriving DecidableEq, Repr

/-- The fixed metadata block every `MemoryEdge` carries. -/
structure EdgeMeta where
  createdAt : Nat
  updatedAt : Nat
  extra : List (String × String)
  deriving DecidableEq, Repr

structure MemoryEdge where
  id : String
  sourceId : String
  targetId : String
  type : String
  weight : Rat
  metadata : EdgeMeta
  bidirectional : Bool
  deriving DecidableEq, Repr

namespace MemoryEdge

/-- The `MemoryEdge` constructor. -/
def create (sourceId targetId type : String) (arg : EdgeMetaArg) (newId : String)
    (now : Nat) : MemoryEdge where
  id := newId
  sourceId := sourceId
  targetId := targetId
  type := type
  weight := jsOrRat arg.weight 1
  metadata := { createdAt := now, updatedAt := now, extra := arg.extra }
  bidirectional := arg.bidirectional.getD false

/-- `MemoryEdge.reinforce`: strengthen the weight, clamped to 2.0. -/
def reinforce (e : MemoryEdge) (amount : Rat) (now : Nat) : MemoryEdge :=
  let w := min 2 (ratAdd e.weight amount)
  { e with weight := w, metadata := { e.metadata with updatedAt := now } }

/-- `MemoryEdge.fromJSON`: constructor call with the serialized metadata, then
restore id, weight and bidirectional (edge metadata timestamps are reset). -/
def fromJSON (j : MemoryEdge) (now : Nat) : MemoryEdge :=
  let edge := create j.sourceId j.targetId j.type { extra := j.metadata.extra } j.id now
  { edge with id := j.id, weight := j.weight, bidirectional := j.bidirectional }

end MemoryEdge

/-- The `metadata` argument accepted by the `WorkSession` constructor. -/
structure SessionMetaArg where
  platform : Option String := none
  url : Option String := none
  title : Option String := none
  description : Option String := none
  tags : Option (List String) := none
  deriving DecidableEq, Repr

structure WorkSession where
  id : String
  startedAt : Nat
  endedAt : Option Nat
  platform : String
  url : Option String
  title : String
  description : String
  tags : List String
  nodeIds : Jset
  promptCount : Nat
  responseCount : Nat
  codeBlockCount : Nat
  errorCount : Nat
  primaryLanguage : Option String
  primaryFramework : Option String
  primaryTopic : Option String
  isActive : Bool
  deriving DecidableEq, Repr

namespace WorkSession

/-- The `WorkSession` constructor. -/
def create (arg : SessionMetaArg) (newId : String) (now : Nat) : WorkSession where
  id := newId
  startedAt := now
  endedAt := none
  platform := jsOrStr arg.platform "unknown"
  url := match arg.url with
    | some u => if u = "" then none else some u
    | none => none
  title := jsOrStr arg.title "Untitled Session"
  description := arg.description.getD ""
  tags := arg.tags.getD []
  nodeIds := []
  promptCount := 0
  responseCount := 0
  codeBlockCount := 0
  errorCount := 0
  primaryLanguage := none
  primaryFramework := none
  primaryTopic := none
  isActive := true

/-- `WorkSession.addNode`. -/
def addNodeId (s : WorkSession) (nodeId : String) : WorkSession :=
  { s with nodeIds := s.nodeIds.add nodeId }

/-- `WorkSession.removeNode`. -/
def removeNodeId (s : WorkSession) (nodeId : String) : WorkSession :=
  { s with nodeIds := s.nodeIds.remove nodeId }

/-- `WorkSession.end`. -/
def finish (s : WorkSession) (now : Nat) : WorkSession :=
  { s with endedAt := some now, isActive := false }

/-- `WorkSession.fromJSON`: constructor call, then restore every field
explicitly (sessions round-trip faithfully). -/
def fromJSON (j : WorkSession) (now : Nat) : WorkSession :=
  let s := create
    { platform := some j.platform
      url := j.url
      title := some j.title
      description := some j.description
      tags := some j.tags } j.id now
  { s with
    id := j.id
    startedAt := j.startedAt
    endedAt := j.endedAt
    nodeIds := j.nodeIds
    promptCount := j.promptCount
    responseCount := j.responseCount
    codeBlockCount := j.codeBlockCount
    errorCount := j.errorCount
    primaryLanguage := j.primaryLanguage
    primaryFramework := j.primaryFramework
    primaryTopic := j.primaryTopic
    isActive := j.isActive }

end WorkSession

structure GraphStats where
  totalNodes : Int
  totalEdges : Int
  createdAt : Nat
  lastModified : Nat
  deriving DecidableEq, Repr

/-- The `MemoryGraph`: primary node/edge tables, adjacency lists, type indexes,
the content-hash dedup index, and sessions.  The JS `activeSession` field holds
a reference aliased into the `sessions` map; here it is the session id, and all
updates to the active session go through the map. -/
structure MemoryGraph where
  nodes : Jmap MemoryNode
  edges : Jmap MemoryEdge
  outgoing : Jmap Jset
  incoming : Jmap Jset
  nodesByType : Jmap Jset
  edgesByType : Jmap Jset
  contentIndex : Jmap String
  sessions : Jmap WorkSession
  activeSession : Option String
  stats : GraphStats
  deriving DecidableEq, Repr

namespace MemoryGraph

/-- `new MemoryGraph()`. -/
def new (now : Nat) : MemoryGraph where
  nodes := []
  edges := []
  outgoing := []
  incoming := []
  nodesByType := []
  edgesByType := []
  contentIndex := []
  sessions := []
  activeSession := none
  stats := { totalNodes := 0, totalEdges := 0, createdAt := now, lastModified := now }

/-- Registers a freshly constructed node: primary table, content index, type
index, empty adjacency lists, link to the active session, stats. -/
def registerNode (g : MemoryGraph) (node : MemoryNode) (hash : String) (now : Nat) :
    MemoryGraph :=
  let withSession :=
    match g.activeSession with
    | some sid =>
      match g.sessions.lookup sid with
      | some s => g.sessions.set sid (s.addNodeId node.id)
      | none => g.sessions
    | none => g.sessions
  { g with
    nodes := g.nodes.set node.id node
    contentIndex := g.contentIndex.set hash node.id
    nodesByType := g.nodesByType.set node.type
      (((g.nodesByType.lookup node.type).getD []).add node.id)
    outgoing := g.outgoing.set node.id []
    incoming := g.incoming.set node.id []
    sessions := withSession
    stats := { g.stats with totalNodes := g.stats.totalNodes + 1, lastModified := now } }

/-- Merge an explicitly supplied, larger importance into an existing node
(`if (metadata.importance && metadata.importance > existingNode.importance)`). -/
def mergeImportance (n : MemoryNode) (imp : Option Rat) : MemoryNode :=
  match imp with
  | some i => if i ≠ 0 ∧ n.importance < i then { n with importance := i } else n
  | none => n

/-- `MemoryGraph.addNode`: dedup by content hash.  If the hash resolves to a
live node, touch it (and merge importance) and return it; otherwise construct
a fresh node (attached to the active session) and index it. -/
def addNode (g : MemoryGraph) (type content : String) (arg : MetaArg) (newId : String)
    (now : Nat) : MemoryNode × MemoryGraph :=
  let hash := hashContent type content
  match (g.contentIndex.lookup hash).bind
      (fun eid => (g.nodes.lookup eid).map (fun en => (eid, en))) with
  | some (eid, en) =>
    let touched := mergeImportance (en.touch now) arg.importance
    (touched, { g with nodes := g.nodes.set eid touched })
  | none =>
    let node := MemoryNode.create type content
      { arg with sessionId := g.activeSession } newId now
    (node, registerNode g node hash now)

/-- `MemoryGraph.updateNode` argument. -/
structure NodeUpdates where
  content : Option String := none
  importance : Option Rat := none
  confidence : Option Rat := none
  deriving DecidableEq, Repr

/-- `MemoryGraph.updateNode`: rehash the content index on a content change;
never touches `createdAt`. -/
def updateNode (g : MemoryGraph) (nodeId : String) (upd : NodeUpdates) (now : Nat) :
    Option MemoryNode × MemoryGraph :=
  match g.nodes.lookup nodeId with
  | none => (none, g)
  | some node =>
    let (node, contentIndex) :=
      match upd.content with
      | some c =>
        let oldHash := hashContent node.type node.content
        let ci := g.contentIndex.del oldHash
        let node := node.updateContent c now
        let newHash := hashContent node.type c
        (node, ci.set newHash nodeId)
      | none => (node, g.contentIndex)
    let node := match upd.importance with
      | some i => { node with importance := i }
      | none => node
    let node := match upd.confidence with
      | some cf => { node with confidence := cf }
      | none => node
    (some node,
      { g with
        nodes := g.nodes.set nodeId node
        contentIndex := contentIndex
        stats := { g.stats with lastModified := now } })

/-- `MemoryGraph._removeEdgeInternal`. -/
def removeEdgeInternal (g : MemoryGraph) (edgeId : String) : MemoryGraph :=
  match g.edges.lookup edgeId with
  | none => g
  | some edge =>
    let outgoing :=
      match g.outgoing.lookup edge.sourceId with
      | some s => g.outgoing.set edge.sourceId (s.remove edgeId)
      | none => g.outgoing
    let incoming :=
      match g.incoming.lookup edge.targetId with
      | some s => g.incoming.set edge.targetId (s.remove edgeId)
      | none => g.incoming
    let outgoing :=
      if edge.bidirectional then
        match outgoing.lookup edge.targetId with
        | some s => outgoing.set edge.targetId (s.remove edgeId)
        | none => outgoing
      else outgoing
    let incoming :=
      if edge.bidirectional then
        match incoming.lookup edge.sourceId with
        | some s => incoming.set edge.sourceId (s.remove edgeId)
        | none => incoming
      else incoming
    let edgesByType :=
      match g.edgesByType.lookup edge.type with
      | some s => g.edgesByType.set edge.type (s.remove edgeId)
      | none => g.edgesByType
    { g with
      edges := g.edges.del edgeId
      outgoing := outgoing
      incoming := incoming
      edgesByType := edgesByType
      stats := { g.stats with totalEdges := g.stats.totalEdges - 1 } }

/-- `MemoryGraph.removeNode`: remove all incident edges, all index entries and
all session references.  Returns `false` (and leaves the graph unchanged) when
the node does not exist. -/
def removeNode (g : MemoryGraph) (nodeId : String) (now : Nat) : Bool × MemoryGraph :=
  match g.nodes.lookup nodeId with
  | none => (false, g)
  | some node =>
    let outE := (g.outgoing.lookup nodeId).getD []
    let inE := (g.incoming.lookup nodeId).getD []
    let g := outE.foldl removeEdgeInternal g
    let g := inE.foldl removeEdgeInternal g
    let hash := hashContent node.type node.content
    let nodesByType :=
      match g.nodesByType.lookup node.type with
      | some s => g.nodesByType.set node.type (s.remove nodeId)
      | none => g.nodesByType
    (true,
      { g with
        nodes := g.nodes.del nodeId
        contentIndex := g.contentIndex.del hash
        nodesByType := nodesByType
        outgoing := g.outgoing.del nodeId
        incoming := g.incoming.del nodeId
        sessions := g.sessions.mapVals (fun s => s.removeNodeId nodeId)
        stats := { g.stats with totalNodes := g.stats.totalNodes - 1, lastModified := now } })

/-- `MemoryGraph.findEdge` scan over the outgoing adjacency list. -/
def findEdgeGo (g : MemoryGraph) (targetId type : String) : List String → Option MemoryEdge
  | [] => none
  | eid :: rest =>
    match g.edges.lookup eid with
    | some e =>
      if e.targetId = targetId ∧ e.type = type then some e
      else findEdgeGo g targetId type rest
    | none => findEdgeGo g targetId type rest

/-- `MemoryGraph.findEdge`. -/
def findEdge (g : MemoryGraph) (sourceId targetId type : String) : Option MemoryEdge :=
  findEdgeGo g targetId type ((g.outgoing.lookup sourceId).getD [])

/-- `MemoryGraph.addEdge`: null when either endpoint is missing; reinforce an
existing same-typed edge; otherwise create and index a fresh edge. -/
def addEdge (g : MemoryGraph) (sourceId targetId type : String) (arg : EdgeMetaArg)
    (newId : String) (now : Nat) : Option MemoryEdge × MemoryGraph :=
  if ¬ ((g.nodes.lookup sourceId).isSome ∧ (g.nodes.lookup targetId).isSome) then
    (none, g)
  else
    match g.findEdge sourceId targetId type with
    | some e =>
      let e' := e.reinforce (mkRat 1 10) now
      (some e', { g with edges := g.edges.set e.id e' })
    | none =>
      let edge := MemoryEdge.create sourceId targetId type arg newId now
      let outgoing :=
        match g.outgoing.lookup sourceId with
        | some s => g.outgoing.set sourceId (s.add edge.id)
        | none => g.outgoing
      let incoming :=
        match g.incoming.lookup targetId with
        | some s => g.incoming.set targetId (s.add edge.id)
        | none => g.incoming
      let outgoing :=
        if edge.bidirectional then
          match outgoing.lookup targetId with
          | some s => outgoing.set targetId (s.add edge.id)
          | none => outgoing
        else outgoing
      let incoming :=
        if edge.bidirectional then
          match incoming.lookup sourceId with
          | some s => incoming.set sourceId (s.add edge.id)
          | none => incoming
        else incoming
      (some edge,
        { g with
          edges := g.edges.set edge.id edge
          outgoing := outgoing
          incoming := incoming
          edgesByType := g.edgesByType.set type
            (((g.edgesByType.lookup type).getD []).add edge.id)
          stats := { g.stats with totalEdges := g.stats.totalEdges + 1, lastModified := now } })

/-- `MemoryGraph.endSession`. -/
def endSession (g : MemoryGraph) (now : Nat) : MemoryGraph :=
  match g.activeSession with
  | none => g
  | some sid =>
    let sessions :=
      match g.sessions.lookup sid with
      | some s => g.sessions.set sid (s.finish now)
      | none => g.sessions
    { g with sessions := sessions, activeSession := none }

/-- `MemoryGraph.startSession`: end the active session, then create and
activate a fresh one. -/
def startSession (g : MemoryGraph) (arg : SessionMetaArg) (newId : String) (now : Nat) :
    WorkSession × MemoryGraph :=
  let g := if g.activeSession.isSome then g.endSession now else g
  let s := WorkSession.create arg newId now
  (s, { g with sessions := g.sessions.set newId s, activeSession := some newId })

/-- The per-node decay update of `applyDecay`. -/
def decayStep (amount : Rat) (n : MemoryNode) : MemoryNode :=
  { n with decay := max (mkRat 1 10) (ratSub n.decay amount) }

/-- `MemoryGraph.applyDecay`: erode every node's decay, floored at 0.1. -/
def applyDecay (g : MemoryGraph) (amount : Rat) : MemoryGraph :=
  { g with nodes := g.nodes.mapVals (decayStep amount) }

/-- `MemoryGraph.toJSON`: arrays of serialized nodes, edges and sessions plus
the stats block (field-for-field copies in this embedding). -/
structure GraphJson where
  nodes : List MemoryNode
  edges : List MemoryEdge
  sessions : List WorkSession
  stats : GraphStats
  deriving DecidableEq, Repr

def toJSON (g : MemoryGraph) : GraphJson where
  nodes := g.nodes.values
  edges := g.edges.values
  sessions := g.sessions.values
  stats := g.stats

/-- `MemoryGraph.fromJSON`: restore nodes (rebuilding the content and type
indexes and empty adjacency), then edges (rebuilding adjacency and the edge
type index), then sessions, then stats. -/
def fromJSON (j : GraphJson) (now : Nat) : MemoryGraph :=
  let g := MemoryGraph.new now
  let g := j.nodes.foldl (fun g nodeData =>
    let node := MemoryNode.fromJSON nodeData now
    let hash := hashContent node.type node.content
    { g with
      nodes := g.nodes.set node.id node
      contentIndex := g.contentIndex.set hash node.id
      nodesByType := g.nodesByType.set node.type
        (((g.nodesByType.lookup node.type).getD []).add node.id)
      outgoing := g.outgoing.set node.id []
      incoming := g.incoming.set node.id [] }) g
  let g := j.edges.foldl (fun g edgeData =>
    let edge := MemoryEdge.fromJSON edgeData now
    let outgoing :=
      match g.outgoing.lookup edge.sourceId with
      | some s => g.outgoing.set edge.sourceId (s.add edge.id)
      | none => g.outgoing
    let incoming :=
      match g.incoming.lookup edge.targetId with
      | some s => g.incoming.set edge.targetId (s.add edge.id)
      | none => g.incoming
    let outgoing :=
      if edge.bidirectional then
        match outgoing.lookup edge.targetId with
        | some s => outgoing.set edge.targetId (s.add edge.id)
        | none => outgoing
      else outgoing
    let incoming :=
      if edge.bidirectional then
        match incoming.lookup edge.sourceId with
        | some s => incoming.set edge.sourceId (s.add edge.id)
        | none => incoming
      else incoming
    { g with
      edges := g.edges.set edge.id edge
      outgoing := outgoing
      incoming := incoming
      edgesByType := g.edgesByType.set edge.type
        (((g.edgesByType.lookup edge.type).getD []).add edge.id) }) g
  let g := j.sessions.foldl (fun g sessionData =>
    let session := WorkSession.fromJSON sessionData now
    { g with sessions := g.sessions.set session.id session }) g
  { g with stats :=
      { j.stats with
        totalNodes := (g.nodes.keys.length : Int)
        totalEdges := (g.edges.keys.length : Int) } }

end MemoryGraph

namespace MemorySync

/-- `MemorySync._applyNodeData`: rebuild the node from its serialized payload
and install it, updating the content index, the type index, and (only when
absent) the adjacency lists. -/
def applyNodeData (g : MemoryGraph) (nodeData : MemoryNode) (now : Nat) : MemoryGraph :=
  let node := MemoryNode.fromJSON nodeData now
  let hash := hashContent node.type node.content
  { g with
    nodes := g.nodes.set node.id node
    contentIndex := g.contentIndex.set hash node.id
    nodesByType := g.nodesByType.set node.type
      (((g.nodesByType.lookup node.type).getD []).add node.id)
    outgoing := if (g.outgoing.lookup node.id).isSome then g.outgoing
                else g.outgoing.set node.id []
    incoming := if (g.incoming.lookup node.id).isSome then g.incoming
                else g.incoming.set node.id [] }

/-- `MemorySync._handleRemoteNodeAdded`: apply when absent; when present,
apply only if the payload is strictly newer. -/
def handleRemoteNodeAdded (g : MemoryGraph) (nodeData : MemoryNode) (now : Nat) :
    MemoryGraph :=
  match g.nodes.lookup nodeData.id with
  | some existing =>
    if existing.metadata.updatedAt < nodeData.metadata.updatedAt then
      applyNodeData g nodeData now
    else g
  | none => applyNodeData g nodeData now

/-- `MemorySync._handleRemoteNodeUpdated`: when present, apply if the payload
is at least as new (ties favor the incoming node); when absent, do nothing. -/
def handleRemoteNodeUpdated (g : MemoryGraph) (nodeData : MemoryNode) (now : Nat) :
    MemoryGraph :=
  match g.nodes.lookup nodeData.id with
  | some existing =>
    if existing.metadata.updatedAt ≤ nodeData.metadata.updatedAt then
      applyNodeData g nodeData now
    else g
  | none => g

end MemorySync

/-- `MemoryExtractor.extract`: the guard `if (!text || text.length < 20) return null`
followed by the entity extractors, which mutate the graph.  The extractors
themselves are abstracted as a parameter: the guard's behaviour — the subject
of the claims — holds for every extractor body. -/
def MemoryExtractor.extract {α : Type}
    (runExtractors : MemoryGraph → String → MetaArg → α × MemoryGraph)
    (g : MemoryGraph) (text : String) (metadata : MetaArg) :
    Option α × MemoryGraph :=
  if text = "" ∨ text.length < 20 then (none, g)
  else
    let (extraction, g') := runExtractors g text metadata
    (some extraction, g')

-- ============================================================================
-- URL helpers (models of the `new URL` builtin for simple absolute URLs)
-- ============================================================================

/-- Split a character list at the first `://` (scheme separator). -/
def splitSchemeGo : List Char → Option (List Char × List Char)
  | [] => none
  | ':' :: rest =>
    match rest with
    | '/' :: '/' :: rest2 => some ([], rest2)
    | _ => (splitSchemeGo rest).map (fun p => (':' :: p.1, p.2))
  | c :: rest => (splitSchemeGo rest).map (fun p => (c :: p.1, p.2))

/-- A minimal model of the `new URL` builtin for absolute `scheme://host/path`
URLs: returns `(origin, pathname)`, stripping query and fragment; `none` models
the constructor throwing. -/
def parseUrl (u : String) : Option (String × String) :=
  match splitSchemeGo u.toList with
  | none => none
  | some (scheme, rest) =>
    if scheme.isEmpty then none
    else
      let host := rest.takeWhile (fun c => ¬ (c = '/' ∨ c = '?' ∨ c = '#'))
      if host.isEmpty then none
      else
        let tail := rest.drop host.length
        let path := tail.takeWhile (fun c => ¬ (c = '?' ∨ c = '#'))
        some (String.mk scheme ++ "://" ++ String.mk host,
          if path.isEmpty then "/" else String.mk path)

/-- `normalizeUrl`: `origin + pathname`, falling back to `String(u || "")`. -/
def normalizeUrl (u : Option String) : String :=
  match parseUrl (u.getD "") with
  | some (origin, path) => origin ++ path
  | none => u.getD ""

/-- Characters admitted by the `/\/c\/([a-zA-Z0-9_-]+)/` capture group. -/
def isStableIdChar (c : Char) : Bool :=
  c.isAlpha || c.isDigit || c = '_' || c = '-'

/-- First match of `/\/c\/([a-zA-Z0-9_-]+)/` in a pathname. -/
def findCHash : List Char → Option String
  | [] => none
  | '/' :: rest =>
    match rest with
    | 'c' :: '/' :: rest2 =>
      let h := rest2.takeWhile isStableIdChar
      if h.isEmpty then findCHash rest else some (String.mk h)
    | _ => findCHash rest
  | _ :: rest => findCHash rest

/-- `stableIdFromUrl`: `c_<hash>` when the URL's pathname matches `/c/<hash>`. -/
def stableIdFromUrl (u : Option String) : Option String :=
  match parseUrl (u.getD "") with
  | some (_, path) =>
    match findCHash path.toList with
    | some h => some ("c_" ++ h)
    | none => none
  | none => none

-- ============================================================================
-- String search helpers (JS `includes` and the ad-hoc regexes)
-- ============================================================================

/-- JS `s.includes(t)`. -/
def jsIncludes (s t : String) : Bool :=
  listIncludesGo t.toList s.toList

/-- A JS regex word character (`\w`). -/
def isWordChar (c : Char) : Bool :=
  c.isAlpha || c.isDigit || c = '_'

/-- Scan for a match of `\b` followed by the literal `t` (whose characters are
all word characters: the search tokens are `[a-z0-9_]+` runs). -/
def wordStartHitGo (t : List Char) : List Char → Bool → Bool
  | [], _ => false
  | c :: rest, canStart =>
    (canStart && t.isPrefixOf (c :: rest)) || wordStartHitGo t rest (!isWordChar c)

/-- Test of the scoring regex `new RegExp("\\b" + t, "i")` on a lowercased
haystack. -/
def wordStartHit (s t : String) : Bool :=
  wordStartHitGo t.toList s.toList true

/-- Scan for a match of `\b t \b` (boundary on both sides). -/
def wordBothHitGo (t : List Char) : List Char → Bool → Bool
  | [], _ => false
  | c :: rest, canStart =>
    (canStart && t.isPrefixOf (c :: rest) &&
      (match (c :: rest).drop t.length with
       | [] => true
       | d :: _ => !isWordChar d)) || wordBothHitGo t rest (!isWordChar c)

/-- Test of a `\b(...)\b` regex alternative on a lowercased haystack. -/
def wordBothHit (s t : String) : Bool :=
  wordBothHitGo t.toList s.toList true

-- ============================================================================
-- Conversation store (shared storage module)
-- ============================================================================

/-- A conversation record.  Fields other than `id` are optional, modelling
presence or absence of the key on the JS object. -/
structure Conv where
  id : String := ""
  title : Option String := none
  url : Option String := none
  ts : Option Nat := none
  messages : Option (List (String × String)) := none
  text : Option String := none
  hash : Option String := none
  tags : Option (List String) := none
  pinned : Option Bool := none
  notes : Option String := none
  createdAt : Option Nat := none
  updatedAt : Option Nat := none
  deriving DecidableEq, Repr

/-- The conversation store document `{byId, order, urlToId}`. -/
structure ConvStore where
  byId : Jmap Conv
  order : List String
  urlToId : Jmap String
  deriving DecidableEq, Repr

/-- The empty store. -/
def ConvStore.empty : ConvStore := { byId := [], order := [], urlToId := [] }

/-- First-of-two for optional fields: JS object spread `{...prev, ...incoming}`
keeps the incoming key when present. -/
def orO {α : Type} (a b : Option α) : Option α :=
  match a with
  | some x => some x
  | none => b

/-- Object spread `{...prev, ...conversation}` over conversation records. -/
def spreadConv (prev incoming : Conv) : Conv where
  id := incoming.id
  title := orO incoming.title prev.title
  url := orO incoming.url prev.url
  ts := orO incoming.ts prev.ts
  messages := orO incoming.messages prev.messages
  text := orO incoming.text prev.text
  hash := orO incoming.hash prev.hash
  tags := orO incoming.tags prev.tags
  pinned := orO incoming.pinned prev.pinned
  notes := orO incoming.notes prev.notes
  createdAt := orO incoming.createdAt prev.createdAt
  updatedAt := orO incoming.updatedAt prev.updatedAt

-- JSON rendering used by `approxSize` (length of `JSON.stringify(store)`).

def jsonObjOf (fields : List (Option (String × String))) : String :=
  "\x7b" ++ String.intercalate ","
    ((fields.filterMap id).map (fun p => jsonQuote p.1 ++ ":" ++ p.2)) ++ "\x7d"

def jsonArrOf (elems : List String) : String :=
  "[" ++ String.intercalate "," elems ++ "]"

def jsonOfConv (c : Conv) : String :=
  jsonObjOf
    [ some ("id", jsonQuote c.id)
    , c.title.map (fun v => ("title", jsonQuote v))
    , c.url.map (fun v => ("url", jsonQuote v))
    , c.ts.map (fun v => ("ts", toString v))
    , c.messages.map (fun v => ("messages", jsonArrOf (v.map (fun m =>
        jsonObjOf [some ("role", jsonQuote m.1), some ("text", jsonQuote m.2)]))))
    , c.text.map (fun v => ("text", jsonQuote v))
    , c.hash.map (fun v => ("hash", jsonQuote v))
    , c.tags.map (fun v => ("tags", jsonArrOf (v.map jsonQuote)))
    , c.pinned.map (fun v => ("pinned", if v then "true" else "false"))
    , c.notes.map (fun v => ("notes", jsonQuote v))
    , c.createdAt.map (fun v => ("createdAt", toString v))
    , c.updatedAt.map (fun v => ("updatedAt", toString v)) ]

def jsonOfStore (s : ConvStore) : String :=
  jsonObjOf
    [ some ("byId", jsonObjOf (s.byId.map (fun p => some (p.1, jsonOfConv p.2))))
    , some ("order", jsonArrOf (s.order.map jsonQuote))
    , some ("urlToId", jsonObjOf (s.urlToId.map (fun p => some (p.1, jsonQuote p.2)))) ]

/-- `approxSize`: the length of the JSON serialization. -/
def approxSize (s : ConvStore) : Nat :=
  (jsonOfStore s).length

def evictCountGo (maxItems : Nat) : Nat → ConvStore → ConvStore
  | 0, store => store
  | fuel + 1, store =>
    if store.order.length > maxItems then
      match store.order.getLast? with
      | some drop =>
        evictCountGo maxItems fuel
          { store with order := store.order.dropLast, byId := store.byId.del drop }
      | none => store
    else store

/-- `while (store.order.length > maxItems)` eviction loop (each step pops the
tail, so `order.length` bounds the iterations). -/
def evictCount (store : ConvStore) (maxItems : Nat) : ConvStore :=
  evictCountGo maxItems store.order.length store

def evictBytesGo (maxBytes : Nat) : Nat → ConvStore → ConvStore
  | 0, store => store
  | fuel + 1, store =>
    if approxSize store > maxBytes ∧ store.order.length > 1 then
      match store.order.getLast? with
      | some drop =>
        evictBytesGo maxBytes fuel
          { store with order := store.order.dropLast, byId := store.byId.del drop }
      | none => store
    else store

/-- `while (approxSize(store) > maxBytes && store.order.length > 1)` loop. -/
def evictBytes (store : ConvStore) (maxBytes : Nat) : ConvStore :=
  evictBytesGo maxBytes store.order.length store

/-- `saveConversation`: canonical-id derivation and migration, metadata-
preserving merge, url map and order maintenance, and the two eviction caps. -/
def saveConversation (store : ConvStore) (conversation : Conv)
    (maxItems : Nat := 80) (maxBytes : Nat := 8000000) (now : Nat := 0) : ConvStore :=
  let normalizedUrl := normalizeUrl conversation.url
  let stable := stableIdFromUrl conversation.url
  let incomingId := conversation.id
  let canonicalId := stable.getD incomingId
  let store :=
    match store.urlToId.lookup normalizedUrl with
    | some prevForUrl =>
      if prevForUrl ≠ canonicalId ∧ stable.isSome then
        let store :=
          match store.byId.lookup prevForUrl with
          | some prevRec =>
            if (store.byId.lookup canonicalId).isSome then store
            else { store with byId := store.byId.set canonicalId prevRec }
          | none => store
        { store with
          byId := store.byId.del prevForUrl
          order := store.order.filter (fun x => x ≠ prevForUrl) }
      else store
    | none => store
  let store :=
    if incomingId ≠ canonicalId then
      match store.byId.lookup incomingId with
      | some tmpRec =>
        let store :=
          if (store.byId.lookup canonicalId).isSome then store
          else { store with byId := store.byId.set canonicalId tmpRec }
        { store with
          byId := store.byId.del incomingId
          order := store.order.filter (fun x => x ≠ incomingId) }
      | none => store
    else store
  let prev := (store.byId.lookup canonicalId).getD {}
  let toSave := { spreadConv prev conversation with id := canonicalId }
  let toSave :=
    if conversation.tags.isNone ∧ prev.tags.isSome then { toSave with tags := prev.tags }
    else toSave
  let toSave :=
    if conversation.pinned.isNone ∧ prev.pinned.isSome then { toSave with pinned := prev.pinned }
    else toSave
  let toSave :=
    if conversation.notes.isNone ∧ prev.notes.isSome then { toSave with notes := prev.notes }
    else toSave
  let toSave := { toSave with tags := some (toSave.tags.getD []) }
  let toSave := { toSave with pinned := some (toSave.pinned.getD false) }
  let toSave := { toSave with
    createdAt := some (jsOrNat prev.createdAt (jsOrNat conversation.createdAt now))
    updatedAt := some now }
  let store := { store with byId := store.byId.set canonicalId toSave }
  let store :=
    if normalizedUrl ≠ "" then
      { store with urlToId := store.urlToId.set normalizedUrl canonicalId }
    else store
  let store := { store with order := canonicalId :: store.order.filter (fun x => x ≠ canonicalId) }
  evictBytes (evictCount store maxItems) maxBytes

/-- `deleteConversation`: drop the record, its order entry, and every
`urlToId` entry pointing at it. -/
def deleteConversation (store : ConvStore) (id : String) : ConvStore :=
  { byId := store.byId.del id
    order := store.order.filter (fun x => x ≠ id)
    urlToId := store.urlToId.filter (fun p => p.2 ≠ id) }

-- ============================================================================
-- Conversation search (listConversations)
-- ============================================================================

/-- The stop-list dropped from query tokens. -/
def stopWords : List String :=
  ["the","a","an","and","or","to","of","in","on","for","with","is","are","was",
   "were","be","as","at","by","from"]

/-- A character kept by the tokenizer split `/[^a-z0-9_]+/i` (queries are
lowercased first). -/
def isTokenChar (c : Char) : Bool :=
  c.isAlpha || c.isDigit || c = '_'

def tokenRunsGo : List Char → List Char → List String
  | [], cur => if cur.isEmpty then [] else [String.mk cur.reverse]
  | c :: rest, cur =>
    if isTokenChar c then tokenRunsGo rest (c :: cur)
    else if cur.isEmpty then tokenRunsGo rest []
    else String.mk cur.reverse :: tokenRunsGo rest []

/-- Maximal `[a-z0-9_]` runs of a string (the tokenizer split, already
dropping empty pieces). -/
def tokenRuns (s : String) : List String :=
  tokenRunsGo s.toList []

/-- The search filters argument. -/
structure ConvFilters where
  pinnedOnly : Bool := false
  hasCode : Bool := false
  tag : Option String := none
  tags : Option (List String) := none
  since : Option Nat := none
  untilTime : Option Nat := none
  deriving DecidableEq, Repr

/-- `hasCode(c)`: a fenced block or a stack-trace keyword in the text. -/
def convHasCode (c : Conv) : Bool :=
  let t := c.text.getD ""
  jsIncludes t "```" ||
    (let low := strLower t
     wordBothHit low "stack trace" || wordBothHit low "traceback" || wordBothHit low "exception")

/-- `Number(c.updatedAt || c.ts || 0)`. -/
def convUpdatedAt (c : Conv) : Nat :=
  jsOrNat c.updatedAt (jsOrNat c.ts 0)

/-- `scoreConversation`: phrase bonuses, per-token field bonuses, word-start
re-checks for tokens of length ≥ 3, a recency multiplier of up to 20%, and a
flat pinned bonus. -/
def scoreConversation (c : Conv) (qRaw q : String) (tokens : List String) (now : Nat) : Rat :=
  if qRaw = "" then 0
  else
    let title := strLower (c.title.getD "")
    let url := strLower (c.url.getD "")
    let text := strLower (c.text.getD "")
    let tags := (c.tags.getD []).map strLower
    let score : Rat := 0
    let score := if q ≠ "" ∧ jsIncludes title q then ratAdd score 40 else score
    let score := if q ≠ "" ∧ jsIncludes text q then ratAdd score 10 else score
    let score := tokens.foldl (fun s t =>
      let s := if jsIncludes title t then ratAdd s 18 else s
      let s := if tags.any (fun x => jsIncludes x t) then ratAdd s 14 else s
      let s := if jsIncludes url t then ratAdd s 4 else s
      let s := if jsIncludes text t then ratAdd s 4 else s
      if t.length ≥ 3 then
        let s := if wordStartHit title t then ratAdd s 6 else s
        if wordStartHit text t then ratAdd s 2 else s
      else s) score
    let ageMs : Int := (now : Int) - (convUpdatedAt c : Int)
    let twoWeeks : Rat := 1209600000
    let boost := max 0 (min (mkRat 1 5)
      (ratMul (ratDiv (ratSub twoWeeks (mkRat ageMs 1)) twoWeeks) (mkRat 1 5)))
    let score := ratMul score (ratAdd 1 boost)
    if c.pinned.getD false then ratAdd score 5 else score

/-- Does a record pass the search filters? -/
def passesFilters (c : Conv) (filters : ConvFilters) : Bool :=
  let updatedAt := convUpdatedAt c
  let ctags := (c.tags.getD []).map strLower
  (!filters.pinnedOnly || c.pinned.getD false) &&
  (!filters.hasCode || convHasCode c) &&
  (match filters.since with
   | some s => !(s ≠ 0 ∧ updatedAt ≠ 0 ∧ updatedAt < s)
   | none => true) &&
  (match filters.untilTime with
   | some u => !(u ≠ 0 ∧ updatedAt ≠ 0 ∧ updatedAt > u)
   | none => true) &&
  (match filters.tag with
   | some tg =>
     let want := strTrim (strLower tg)
     want = "" || ctags.contains want
   | none => true) &&
  (match filters.tags with
   | some ts =>
     ts.isEmpty || (ts.map strLower).all (fun t => ctags.contains t)
   | none => true)

/-- The candidate-collection loop of `listConversations`: walk `order`, apply
filters, require a token hit in the title/url/text haystack when a query is
present, and score.  With an empty query, collection stops at `limit`. -/
def collectConvsGo (byId : Jmap Conv) (qRaw q : String) (tokens : List String)
    (filters : ConvFilters) (limit : Nat) (now : Nat) :
    List String → List (Conv × Rat) → List (Conv × Rat)
  | [], items => items
  | id :: rest, items =>
    match byId.lookup id with
    | none => collectConvsGo byId qRaw q tokens filters limit now rest items
    | some c =>
      if !passesFilters c filters then
        collectConvsGo byId qRaw q tokens filters limit now rest items
      else if qRaw = "" then
        let items := items ++ [(c, 0)]
        if items.length ≥ limit then items
        else collectConvsGo byId qRaw q tokens filters limit now rest items
      else
        let hay := strLower ((c.title.getD "") ++ "\n" ++ (c.url.getD "") ++ "\n"
          ++ strTake 8000 (c.text.getD ""))
        if !jsIncludes hay q ∧ tokens ≠ [] ∧ !tokens.any (fun t => jsIncludes hay t) then
          collectConvsGo byId qRaw q tokens filters limit now rest items
        else
          collectConvsGo byId qRaw q tokens filters limit now rest
            (items ++ [(c, scoreConversation c qRaw q tokens now)])

/-- Pinned flag as the number the sort comparators subtract. -/
def pinnedNum (c : Conv) : Int :=
  if c.pinned.getD false then 1 else 0

/-- The relevance comparator (score desc, then pinned desc, then updatedAt
desc) as a total preorder for a stable sort. -/
def relLe (a b : Conv × Rat) : Bool :=
  if a.2 ≠ b.2 then b.2 < a.2
  else if pinnedNum a.1 ≠ pinnedNum b.1 then pinnedNum b.1 < pinnedNum a.1
  else convUpdatedAt b.1 ≤ convUpdatedAt a.1

/-- The recency comparator (pinned desc, then updatedAt desc). -/
def recentLe (a b : Conv × Rat) : Bool :=
  if pinnedNum a.1 ≠ pinnedNum b.1 then pinnedNum b.1 < pinnedNum a.1
  else convUpdatedAt b.1 ≤ convUpdatedAt a.1

/-- `listConversations`. -/
def listConversations (store : ConvStore) (query : String) (limit : Nat)
    (filters : ConvFilters) (sort : String) (now : Nat) : List Conv :=
  let qRaw := strTrim query
  let q := strLower qRaw
  let tokens := (tokenRuns q).filter (fun t => !stopWords.contains t)
  let items := collectConvsGo store.byId qRaw q tokens filters limit now store.order []
  let sorted :=
    if qRaw = "" ∨ sort = "recent" then stableSort recentLe items
    else stableSort relLe items
  (sorted.take limit).map Prod.fst

-- ============================================================================
-- Webhook job queue and dispatcher (background service worker)
-- ============================================================================

/-- A queued webhook job. -/
structure Job where
  id : String
  jobType : String := "webhook"
  connectorId : String := ""
  status : String := "queued"
  attempts : Nat := 0
  createdAt : Nat := 0
  updatedAt : Nat := 0
  nextRunAt : Option Nat := none
  error : Option String := none
  lastResponse : Option String := none
  result : Option Nat := none
  deriving DecidableEq, Repr

/-- The jobs store `{byId, order}` (newest first). -/
structure JobsStore where
  byId : Jmap Job
  order : List String
  deriving DecidableEq, Repr

/-- A user-configured webhook connector. -/
structure Connector where
  id : String := ""
  url : String := ""
  secret : String := ""
  enabled : Bool := false
  deriving DecidableEq, Repr

/-- The outcome of the webhook `fetch`: an HTTP response (any status) or a
thrown exception rendered as `String(e?.message || e)`. -/
inductive WebhookOutcome where
  | resp (status : Nat) (text : String)
  | thrown (msg : String)
  deriving DecidableEq, Repr

/-- `resp.ok`: status in the 2xx range. -/
def statusOk (status : Nat) : Bool :=
  200 ≤ status && status < 300

/-- `enqueueJob`: a fresh `queued` job at the head of `order`. -/
def enqueueJob (jobs : JobsStore) (connectorId newId : String) (now : Nat) : Job × JobsStore :=
  let j : Job :=
    { id := newId
      jobType := "webhook"
      connectorId := connectorId
      createdAt := now
      updatedAt := now
      attempts := 0
      status := "queued" }
  (j, { byId := jobs.byId.set newId j
        order := newId :: jobs.order.filter (fun x => x ≠ newId) })

/-- One delivery attempt of `pumpJobs` (the `updateJob` to `running` with the
bumped attempt counter, the `sendWebhook` call, and the success / backoff
update).  On failure the backoff is `min(60000 * attempts, 600000)` ms, the
job requeues, and it fails permanently once `attempts ≥ 5`. -/
def attemptJob (j : Job) (outcome : WebhookOutcome) (now : Nat) : Job :=
  let attempts := j.attempts + 1
  let running := { j with status := "running", attempts := attempts, updatedAt := now }
  match outcome with
  | .resp status text =>
    if statusOk status then
      { running with status := "done", result := some status, error := some "" }
    else
      let backoff := min (60000 * attempts) 600000
      { running with
        status := if attempts ≥ 5 then "failed" else "queued"
        error := some ("http_" ++ toString status)
        lastResponse := some (strTake 2000 text)
        nextRunAt := some (now + backoff) }
  | .thrown msg =>
    let backoff := min (60000 * attempts) 600000
    { running with
      status := if attempts ≥ 5 then "failed" else "queued"
      error := some msg
      nextRunAt := some (now + backoff) }

/-- The environment a pump runs against: the connectors from settings, the
host-permission oracle, and the network behaviour per job id. -/
structure PumpEnv where
  connectors : Jmap Connector
  hasHostPermission : String → Bool
  outcomes : String → WebhookOutcome

/-- `sanitizeUrlToHostPattern`: `<origin>/*`, or `""` for an invalid URL. -/
def sanitizeUrlToHostPattern (u : String) : String :=
  match parseUrl u with
  | some (origin, _) => origin ++ "/*"
  | none => ""

/-- The `pumpJobs` scan: oldest first (reversed `order`), at most three jobs
advanced per invocation; `done`/`running` jobs and jobs whose `nextRunAt` lies
in the future are skipped; connector and host-permission failures are
terminal. -/
def pumpJobsGo (env : PumpEnv) (now : Nat) : List String → Nat → JobsStore → JobsStore
  | [], _, js => js
  | id :: rest, fuel, js =>
    if fuel = 0 then js
    else
      match js.byId.lookup id with
      | none => pumpJobsGo env now rest fuel js
      | some j =>
        if j.status = "done" ∨ j.status = "running" then pumpJobsGo env now rest fuel js
        else if (match j.nextRunAt with | some t => decide (now < t) | none => false) then
          pumpJobsGo env now rest fuel js
        else
          match env.connectors.lookup j.connectorId with
          | none =>
            let jf : Job :=
              { j with status := "failed", error := some "missing_connector", updatedAt := now }
            pumpJobsGo env now rest (fuel - 1) { js with byId := js.byId.set id jf }
          | some c =>
            if ¬ (c.enabled ∧ c.url ≠ "") then
              let jf : Job :=
                { j with status := "failed", error := some "missing_connector", updatedAt := now }
              pumpJobsGo env now rest (fuel - 1) { js with byId := js.byId.set id jf }
            else
              let host := sanitizeUrlToHostPattern c.url
              if host ≠ "" ∧ ¬ env.hasHostPermission host then
                let jf : Job :=
                  { j with status := "failed", error := some "missing_host_permission", updatedAt := now }
                pumpJobsGo env now rest (fuel - 1) { js with byId := js.byId.set id jf }
              else
                pumpJobsGo env now rest (fuel - 1)
                  { js with byId := js.byId.set id (attemptJob j (env.outcomes id) now) }

/-- `pumpJobs`. -/
def pumpJobs (env : PumpEnv) (jobs : JobsStore) (now : Nat) : JobsStore :=
  pumpJobsGo env now jobs.order.reverse 3 jobs

/-- A failing delivery outcome: a non-2xx response or a thrown exception. -/
def failingOutcome : WebhookOutcome → Prop
  | .resp status _ => ¬ statusOk status
  | .thrown _ => True

/-- The error string `attemptJob` records for a failing outcome. -/
def outcomeErrMsg : WebhookOutcome → String
  | .resp status _ => "http_" ++ toString status
  | .thrown msg => msg

instance : DecidablePred failingOutcome := by
  intro o
  cases o with
  | resp status text => exact instDecidableNot
  | thrown msg => exact instDecidableTrue

/-- Fold a sequence of timed delivery attempts over a job. -/
def attemptAll (j : Job) (os : List (WebhookOutcome × Nat)) : Job :=
  os.foldl (fun j' p => attemptJob j' p.1 p.2) j

-- ============================================================================
-- Graph well-formedness invariants
-- ============================================================================

namespace MemoryGraph

/-- Every node is stored under its own id. -/
def NodesKeyed (g : MemoryGraph) : Prop :=
  ∀ p ∈ g.nodes, p.2.id = p.1

/-- Every live node is indexed in the content index under its hash. -/
def ContentComplete (g : MemoryGraph) : Prop :=
  ∀ p ∈ g.nodes, g.contentIndex.lookup (hashContent p.2.type p.2.content) = some p.1

/-- Every content-index entry points at a live node carrying that hash. -/
def ContentSound (g : MemoryGraph) : Prop :=
  ∀ q ∈ g.contentIndex,
    (g.nodes.lookup q.2).map (fun n => hashContent n.type n.content) = some q.1

/-- The dedup invariant machinery: unique keys in the primary node table and
the content index, nodes keyed by id, and a two-way correspondence between
live nodes and content-index entries. -/
def ContentInv (g : MemoryGraph) : Prop :=
  g.nodes.keys.Nodup ∧ g.contentIndex.keys.Nodup ∧ NodesKeyed g ∧
    ContentComplete g ∧ ContentSound g

/-- Node uniqueness by content: no two distinct live node entries share the
same type and content hash. -/
def UniqueByTypeHash (g : MemoryGraph) : Prop :=
  ∀ p ∈ g.nodes, ∀ q ∈ g.nodes,
    p.2.type = q.2.type →
    hashContent p.2.type p.2.content = hashContent q.2.type q.2.content →
    p = q

/-- Every edge appears in the outgoing adjacency of its source and the
incoming adjacency of its target. -/
def EdgesIndexed (g : MemoryGraph) : Prop :=
  ∀ p ∈ g.edges,
    p.1 ∈ (g.outgoing.lookup p.2.sourceId).getD [] ∧
    p.1 ∈ (g.incoming.lookup p.2.targetId).getD []

/-- Every id listed in a type bucket is a live node of that type. -/
def TypeIndexSound (g : MemoryGraph) : Prop :=
  ∀ q ∈ g.nodesByType, ∀ i ∈ q.2, (g.nodes.lookup i).map (fun n => n.type) = some q.1

/-- Well-formedness hypothesis for graphs produced by the graph's own
operations. -/
def WellFormed (g : MemoryGraph) : Prop :=
  ContentInv g ∧ EdgesIndexed g ∧ TypeIndexSound g ∧ g.nodesByType.keys.Nodup

end MemoryGraph

/-- One application of a graph mutation operation.  The boolean flag selects
whether `updateNode` may carry a content change.  Generated node ids are
assumed fresh (`nodes.lookup nid = none`), matching the random id scheme.
`prune` removes, via `removeNode`, the nodes selected by its age and relevance
thresholds; the selection is over-approximated by an arbitrary id list. -/
inductive GraphStep : Bool → MemoryGraph → MemoryGraph → Prop where
  | addNode (b : Bool) (g : MemoryGraph) (t c : String) (arg : MetaArg) (nid : String)
      (now : Nat) (hfresh : g.nodes.lookup nid = none) :
      GraphStep b g (g.addNode t c arg nid now).2
  | updateNode (b : Bool) (g : MemoryGraph) (nid : String) (upd : MemoryGraph.NodeUpdates)
      (now : Nat) (hb : upd.content = none ∨ b = true) :
      GraphStep b g (g.updateNode nid upd now).2
  | removeNode (b : Bool) (g : MemoryGraph) (nid : String) (now : Nat) :
      GraphStep b g (g.removeNode nid now).2
  | addEdge (b : Bool) (g : MemoryGraph) (s t ty : String) (arg : EdgeMetaArg)
      (eid : String) (now : Nat) :
      GraphStep b g (g.addEdge s t ty arg eid now).2
  | startSession (b : Bool) (g : MemoryGraph) (arg : SessionMetaArg) (sid : String)
      (now : Nat) :
      GraphStep b g (g.startSession arg sid now).2
  | endSession (b : Bool) (g : MemoryGraph) (now : Nat) :
      GraphStep b g (g.endSession now)
  | applyDecay (b : Bool) (g : MemoryGraph) (amount : Rat) :
      GraphStep b g (g.applyDecay amount)
  | prune (b : Bool) (g : MemoryGraph) (ids : List String) (now : Nat) :
      GraphStep b g (ids.foldl (fun h i => (h.removeNode i now).2) g)

/-- Graph states reachable from a fresh graph by mutation steps. -/
inductive GraphReach : Bool → MemoryGraph → Prop where
  | init (b : Bool) (now : Nat) : GraphReach b (MemoryGraph.new now)
  | step (b : Bool) (g g' : MemoryGraph) (hr : GraphReach b g) (hs : GraphStep b g g') :
      GraphReach b g'

/-- A trivial extractor body used to instantiate the guard theorem. -/
def c10Body : MemoryGraph → String → MetaArg → Unit × MemoryGraph :=
  fun g _ _ => ((), g)

/-- A two-conversation store exercising the deletion theorem. -/
def c9Store : ConvStore where
  byId := [("c_a", { id := "c_a" }), ("c_b", { id := "c_b" })]
  order := ["c_a", "c_b"]
  urlToId := [("https://chatgpt.com/c/a", "c_a"), ("https://chatgpt.com/c/b", "c_b")]

/-- The two saves of the canonical-id scenario. -/
def c5Conv1 : Conv := { id := "tmp_x", url := some "https://chatgpt.com/c/abc" }

def c5Conv2 : Conv := { id := "c_abc", url := some "https://chatgpt.com/c/abc" }

def c5Store : ConvStore :=
  saveConversation (saveConversation ConvStore.empty c5Conv1 80 8000000 1000) c5Conv2
    80 8000000 2000

/-- A graph whose single node has been touched once: `accessCount = 1`,
`createdAt = 0`, `lastAccessedAt = 5`. -/
def c3Graph : MemoryGraph :=
  (((MemoryGraph.new 0).addNode "language" "python" {} "n1" 0).2.addNode
    "language" "python" {} "n2" 5).2

/-- The local graph of the C8 witness scenario: one node `n9` stored at
`updatedAt = 5`. -/
def c8Local : MemoryGraph :=
  ((MemoryGraph.new 0).addNode "topic" "rust" {} "n9" 5).2

/-- The node stored in `c8Local` under `n9`. -/
def c8Existing : MemoryNode :=
  MemoryNode.create "topic" "rust" { sessionId := none } "n9" 5

/-- An incoming payload for `n9` with a strictly newer `updatedAt`. -/
def c8Incoming : MemoryNode :=
  MemoryNode.create "topic" "rust" {} "n9" 7

/-- The first save of the C1 witness: a fresh `python` node. -/
def c1First : MemoryNode × MemoryGraph :=
  (MemoryGraph.new 0).addNode "language" "python" {} "n1" 1

/-- The second save of the C1 witness: same type and content, higher
importance. -/
def c1Second : MemoryNode × MemoryGraph :=
  c1First.2.addNode "language" "python" { importance := some (mkRat 7 10) } "n2" 5

/-- A concrete reachable graph for the C4 witness: two nodes, an edge, a
session, decay maintenance, and a pruned third node. -/
def c4Witness : MemoryGraph :=
  ((((((MemoryGraph.new 0).startSession {} "s1" 1).2.addNode "language" "python" {}
    "n1" 2).2.addNode "framework" "django" {} "n2" 3).2.addEdge "n2" "n1" "part_of" {}
    "e1" 4).2.applyDecay (mkRat 1 100)).removeNode "n1" 5 |>.2

instance (g : MemoryGraph) : Decidable (MemoryGraph.NodesKeyed g) := by
  unfold MemoryGraph.NodesKeyed
  infer_instance

instance (g : MemoryGraph) : Decidable (MemoryGraph.ContentComplete g) := by
  unfold MemoryGraph.ContentComplete
  infer_instance

instance (g : MemoryGraph) : Decidable (MemoryGraph.ContentSound g) := by
  unfold MemoryGraph.ContentSound
  infer_instance

instance (g : MemoryGraph) : Decidable (MemoryGraph.ContentInv g) := by
  unfold MemoryGraph.ContentInv
  infer_instance

instance (g : MemoryGraph) : Decidable (MemoryGraph.UniqueByTypeHash g) := by
  unfold MemoryGraph.UniqueByTypeHash
  infer_instance

instance (g : MemoryGraph) : Decidable (MemoryGraph.EdgesIndexed g) := by
  unfold MemoryGraph.EdgesIndexed
  infer_instance

instance (g : MemoryGraph) : Decidable (MemoryGraph.TypeIndexSound g) := by
  unfold MemoryGraph.TypeIndexSound
  infer_instance

instance (g : MemoryGraph) : Decidable (MemoryGraph.WellFormed g) := by
  unfold MemoryGraph.WellFormed
  infer_instance

/-- The update that breaks uniqueness: rewrite `n2`'s content to `alpha`,
which `n1` already carries. -/
def c4Bad : MemoryGraph :=
  ((((MemoryGraph.new 0).addNode "topic" "alpha" {} "n1" 1).2.addNode "topic" "beta" {}
    "n2" 2).2.updateNode "n2" { content := some "alpha" } 3).2

/-- The job of the C6 witness: freshly enqueued, zero attempts. -/
def c6Job : Job := { id := "job_1", connectorId := "hook" }

/-- Five consecutive HTTP 500 outcomes at successive times. -/
def c6Fails : List (WebhookOutcome × Nat) :=
  [(.resp 500 "e1", 10), (.resp 500 "e2", 20), (.thrown "net down", 30),
   (.resp 503 "e4", 40), (.resp 500 "e5", 50)]

/-- Conversation A of the search-ranking scenario: "django" only in the
title. -/
def c7A : Conv :=
  { id := "A", title := some "django", text := some "", tags := some [],
    pinned := some false, updatedAt := some 0 }

/-- Conversation B: "django" only in a tag. -/
def c7B : Conv :=
  { id := "B", title := some "", text := some "", tags := some ["django"],
    pinned := some false, updatedAt := some 0 }

/-- Conversation C: "django" only in the body text. -/
def c7C : Conv :=
  { id := "C", title := some "", text := some "django", tags := some [],
    pinned := some false, updatedAt := some 0 }

def c7Store : ConvStore :=
  { byId := [("A", c7A), ("B", c7B), ("C", c7C)], order := ["A", "B", "C"], urlToId := [] }

def c2Graph : MemoryGraph :=
  (((((MemoryGraph.new 0).startSession {} "s1" 1).2.addNode "language" "python" {}
    "n1" 2).2.addNode "framework" "django" {} "n2" 3).2.addEdge "n2" "n1" "part_of" {}
    "e1" 4).2

namespace Jmap

theorem lookup_eq_none_of_not_mem_keys {α : Type} {m : Jmap α} {k : String}
    (h : k ∉ m.keys) : m.lookup k = none := by
  induction m with
  | nil => rfl
  | cons p rest ih =>
    simp only [keys, List.map_cons, List.mem_cons, not_or] at h
    simp only [lookup]
    rw [if_neg (fun hk => h.1 hk.symm)]
    exact ih h.2

theorem not_mem_keys_of_lookup_eq_none {α : Type} {m : Jmap α} {k : String}
    (h : m.lookup k = none) : k ∉ m.keys := by
  induction m with
  | nil => simp [keys]
  | cons p rest ih =>
    simp only [lookup] at h
    by_cases hk : p.1 = k
    · rw [if_pos hk] at h; exact absurd h (by simp)
    · rw [if_neg hk] at h
      simp only [keys, List.map_cons, List.mem_cons, not_or]
      exact ⟨fun he => hk he.symm, ih h⟩

theorem mem_of_lookup_eq_some {α : Type} {m : Jmap α} {k : String} {v : α}
    (h : m.lookup k = some v) : (k, v) ∈ m := by
  induction m with
  | nil => simp [lookup] at h
  | cons p rest ih =>
    simp only [lookup] at h
    by_cases hk : p.1 = k
    · rw [if_pos hk] at h
      have hv : p.2 = v := Option.some_inj.mp h
      have hp : p = (k, v) := by
        rcases p with ⟨a, b⟩
        simp only at hk hv
        simp [hk, hv]
      exact hp ▸ List.mem_cons_self p rest
    · rw [if_neg hk] at h
      exact List.mem_cons_of_mem _ (ih h)

theorem isSome_lookup_of_mem {α : Type} {m : Jmap α} {p : String × α}
    (h : p ∈ m) : (m.lookup p.1).isSome := by
  induction m with
  | nil => simp at h
  | cons q rest ih =>
    rcases List.mem_cons.mp h with he | hm
    · subst he; simp [lookup]
    · simp only [lookup]
      by_cases hk : q.1 = p.1
      · simp [hk]
      · rw [if_neg hk]; exact ih hm

theorem lookup_eq_some_of_mem_of_nodup {α : Type} {m : Jmap α} {p : String × α}
    (hnd : m.keys.Nodup) (h : p ∈ m) : m.lookup p.1 = some p.2 := by
  induction m with
  | nil => simp at h
  | cons q rest ih =>
    simp only [keys, List.map_cons, List.nodup_cons] at hnd
    rcases List.mem_cons.mp h with he | hm
    · subst he; simp [lookup]
    · simp only [lookup]
      by_cases hk : q.1 = p.1
      · exact absurd (hk ▸ List.mem_map_of_mem Prod.fst hm) hnd.1
      · rw [if_neg hk]; exact ih hnd.2 hm

theorem eq_of_mem_of_mem_of_keys_nodup {α : Type} {m : Jmap α} {p q : String × α}
    (hnd : m.keys.Nodup) (hp : p ∈ m) (hq : q ∈ m) (hk : p.1 = q.1) : p = q := by
  have h1 := lookup_eq_some_of_mem_of_nodup hnd hp
  have h2 := lookup_eq_some_of_mem_of_nodup hnd hq
  rw [hk, h2] at h1
  rcases p with ⟨a, b⟩
  rcases q with ⟨c, d⟩
  simp only at hk
  have := Option.some_inj.mp h1
  simp_all

theorem lookup_set_self {α : Type} (m : Jmap α) (k : String) (v : α) :
    (m.set k v).lookup k = some v := by
  induction m with
  | nil => simp [set, lookup]
  | cons q rest ih =>
    simp only [set]
    by_cases hq : q.1 = k
    · rw [if_pos hq]; simp [lookup]
    · rw [if_neg hq]
      simp only [lookup]
      rw [if_neg hq]
      exact ih

theorem lookup_set_ne {α : Type} (m : Jmap α) (k k' : String) (v : α) (h : k' ≠ k) :
    (m.set k v).lookup k' = m.lookup k' := by
  induction m with
  | nil =>
    simp only [set, lookup]
    rw [if_neg (fun he => h he.symm)]
  | cons q rest ih =>
    simp only [set]
    by_cases hq : q.1 = k
    · rw [if_pos hq]
      simp only [lookup]
      rw [if_neg (fun he => h he.symm), if_neg (by rw [hq]; exact fun he => h he.symm)]
    · rw [if_neg hq]
      simp only [lookup]
      by_cases hq' : q.1 = k'
      · rw [if_pos hq', if_pos hq']
      · rw [if_neg hq', if_neg hq']
        exact ih

theorem keys_set {α : Type} (m : Jmap α) (k : String) (v : α) :
    (m.set k v).keys = if k ∈ m.keys then m.keys else m.keys ++ [k] := by
  induction m with
  | nil => simp [set, keys]
  | cons q rest ih =>
    simp only [set]
    by_cases hq : q.1 = k
    · rw [if_pos hq]
      have : k ∈ keys (q :: rest) := by simp [keys, hq.symm]
      rw [if_pos this]
      simp [keys, hq]
    · rw [if_neg hq]
      simp only [keys, List.map_cons] at *
      by_cases hk : k ∈ rest.map Prod.fst
      · rw [if_pos hk] at ih
        rw [if_pos (by simp [hk]), ih]
      · rw [if_neg hk] at ih
        rw [if_neg (by simp only [List.mem_cons]; push_neg; exact ⟨fun he => hq he.symm, hk⟩), ih]
        simp

theorem keys_set_of_lookup_isSome {α : Type} (m : Jmap α) (k : String) (v : α)
    (h : (m.lookup k).isSome) : (m.set k v).keys = m.keys := by
  rw [keys_set]
  rw [if_pos]
  by_contra hk
  rw [lookup_eq_none_of_not_mem_keys hk] at h
  simp at h

theorem nodup_keys_set {α : Type} {m : Jmap α} (hnd : m.keys.Nodup) (k : String) (v : α) :
    ((m.set k v).keys).Nodup := by
  rw [keys_set]
  by_cases hk : k ∈ m.keys
  · rw [if_pos hk]; exact hnd
  · rw [if_neg hk]
    simp only [List.nodup_append, List.nodup_singleton]
    refine ⟨hnd, trivial, ?_⟩
    intro a ha hb
    rw [List.mem_singleton] at hb
    exact hk (hb ▸ ha)

theorem mem_set {α : Type} {m : Jmap α} {k : String} {v : α} {p : String × α}
    (hnd : m.keys.Nodup) (h : p ∈ m.set k v) : p = (k, v) ∨ (p ∈ m ∧ p.1 ≠ k) := by
  induction m with
  | nil => simp [set] at h; exact Or.inl h
  | cons q rest ih =>
    simp only [keys, List.map_cons, List.nodup_cons] at hnd
    simp only [set] at h
    by_cases hq : q.1 = k
    · rw [if_pos hq] at h
      rcases List.mem_cons.mp h with he | hm
      · exact Or.inl he
      · refine Or.inr ⟨List.mem_cons_of_mem _ hm, fun hpk => ?_⟩
        exact hnd.1 (hq ▸ hpk ▸ List.mem_map_of_mem Prod.fst hm)
    · rw [if_neg hq] at h
      rcases List.mem_cons.mp h with he | hm
      · exact Or.inr ⟨he ▸ List.mem_cons_self q rest, he ▸ hq⟩
      · rcases ih hnd.2 hm with hkv | ⟨hmem, hne⟩
        · exact Or.inl hkv
        · exact Or.inr ⟨List.mem_cons_of_mem _ hmem, hne⟩

theorem lookup_del_self {α : Type} (m : Jmap α) (k : String) :
    (m.del k).lookup k = none := by
  induction m with
  | nil => rfl
  | cons q rest ih =>
    simp only [del]
    by_cases hq : q.1 = k
    · rw [if_pos hq]; exact ih
    · rw [if_neg hq]
      simp only [lookup]
      rw [if_neg hq]
      exact ih

theorem lookup_del_ne {α : Type} (m : Jmap α) (k k' : String) (h : k' ≠ k) :
    (m.del k).lookup k' = m.lookup k' := by
  induction m with
  | nil => rfl
  | cons q rest ih =>
    simp only [del]
    by_cases hq : q.1 = k
    · rw [if_pos hq]
      simp only [lookup]
      rw [if_neg (by rw [hq]; exact fun he => h he.symm)]
      exact ih
    · rw [if_neg hq]
      simp only [lookup]
      by_cases hq' : q.1 = k'
      · rw [if_pos hq', if_pos hq']
      · rw [if_neg hq', if_neg hq']
        exact ih

theorem mem_del {α : Type} {m : Jmap α} {k : String} {p : String × α}
    (h : p ∈ m.del k) : p ∈ m ∧ p.1 ≠ k := by
  induction m with
  | nil => simp [del] at h
  | cons q rest ih =>
    simp only [del] at h
    by_cases hq : q.1 = k
    · rw [if_pos hq] at h
      rcases ih h with ⟨hm, hne⟩
      exact ⟨List.mem_cons_of_mem _ hm, hne⟩
    · rw [if_neg hq] at h
      rcases List.mem_cons.mp h with he | hm
      · exact ⟨he ▸ List.mem_cons_self q rest, he ▸ hq⟩
      · rcases ih hm with ⟨hmem, hne⟩
        exact ⟨List.mem_cons_of_mem _ hmem, hne⟩

theorem keys_del_sublist {α : Type} (m : Jmap α) (k : String) :
    (m.del k).keys.Sublist m.keys := by
  induction m with
  | nil => simp [del]
  | cons q rest ih =>
    simp only [del]
    by_cases hq : q.1 = k
    · rw [if_pos hq]
      exact ih.trans (List.sublist_cons_self q.1 _)
    · rw [if_neg hq]
      simpa [keys] using List.Sublist.cons₂ q.1 ih

theorem nodup_keys_del {α : Type} {m : Jmap α} (hnd : m.keys.Nodup) (k : String) :
    ((m.del k).keys).Nodup :=
  (keys_del_sublist m k).nodup hnd

theorem lookup_mapVals {α β : Type} (f : α → β) (m : Jmap α) (k : String) :
    (mapVals f m).lookup k = (m.lookup k).map f := by
  induction m with
  | nil => rfl
  | cons q rest ih =>
    simp only [mapVals, List.map_cons, lookup]
    by_cases hq : q.1 = k
    · rw [if_pos hq, if_pos hq]; rfl
    · rw [if_neg hq, if_neg hq]; exact ih

theorem mem_mapVals {α β : Type} {f : α → β} {m : Jmap α} {p : String × β}
    (h : p ∈ mapVals f m) : ∃ q ∈ m, p = (q.1, f q.2) := by
  rcases List.mem_map.mp h with ⟨q, hq, he⟩
  exact ⟨q, hq, he.symm⟩

end Jmap

namespace Jset

theorem not_mem_remove (s : Jset) (x : String) : x ∉ s.remove x := by
  intro h
  rcases List.mem_filter.mp h with ⟨_, hne⟩
  simp at hne

end Jset

theorem ratAdd_eq (a b : Rat) : ratAdd a b = a + b := by
  unfold ratAdd
  have ha : ((a.den : Rat)) ≠ 0 := by
    exact_mod_cast a.den_nz
  have hb : ((b.den : Rat)) ≠ 0 := by
    exact_mod_cast b.den_nz
  rw [Rat.mkRat_eq_div]
  conv_rhs => rw [← Rat.num_div_den a, ← Rat.num_div_den b]
  rw [div_add_div _ _ ha hb]
  push_cast
  ring_nf

namespace MemoryGraph

theorem uniqueByTypeHash_of_contentInv {g : MemoryGraph} (h : ContentInv g) :
    UniqueByTypeHash g := by
  obtain ⟨hnd, _, _, hcomp, _⟩ := h
  intro p hp q hq _ hhash
  have h1 := hcomp p hp
  have h2 := hcomp q hq
  rw [hhash, h2] at h1
  exact Jmap.eq_of_mem_of_mem_of_keys_nodup hnd hp hq (Option.some_inj.mp h1).symm

theorem mergeImportance_id (n : MemoryNode) (imp : Option Rat) :
    (mergeImportance n imp).id = n.id := by
  cases imp with
  | none => rfl
  | some i =>
    by_cases h : i ≠ 0 ∧ n.importance < i <;> simp [mergeImportance, h]

theorem mergeImportance_type (n : MemoryNode) (imp : Option Rat) :
    (mergeImportance n imp).type = n.type := by
  cases imp with
  | none => rfl
  | some i =>
    by_cases h : i ≠ 0 ∧ n.importance < i <;> simp [mergeImportance, h]

theorem mergeImportance_content (n : MemoryNode) (imp : Option Rat) :
    (mergeImportance n imp).content = n.content := by
  cases imp with
  | none => rfl
  | some i =>
    by_cases h : i ≠ 0 ∧ n.importance < i <;> simp [mergeImportance, h]

theorem mergeImportance_metadata (n : MemoryNode) (imp : Option Rat) :
    (mergeImportance n imp).metadata = n.metadata := by
  cases imp with
  | none => rfl
  | some i =>
    by_cases h : i ≠ 0 ∧ n.importance < i <;> simp [mergeImportance, h]

theorem mergeImportance_decay (n : MemoryNode) (imp : Option Rat) :
    (mergeImportance n imp).decay = n.decay := by
  cases imp with
  | none => rfl
  | some i =>
    by_cases h : i ≠ 0 ∧ n.importance < i <;> simp [mergeImportance, h]

/-- `ContentInv` transfers along an in-place node replacement that preserves
id, type and content (touch, importance/confidence updates). -/
theorem contentInv_of_set_preserving {g g2 : MemoryGraph} (hinv : ContentInv g)
    {eid : String} {en nn : MemoryNode}
    (hn : g.nodes.lookup eid = some en)
    (h2n : g2.nodes = g.nodes.set eid nn) (h2c : g2.contentIndex = g.contentIndex)
    (hid : nn.id = en.id) (hty : nn.type = en.type) (hcon : nn.content = en.content) :
    ContentInv g2 := by
  obtain ⟨hndn, hndc, hkey, hcomp, hsound⟩ := hinv
  have hmem := Jmap.mem_of_lookup_eq_some hn
  have hkeyen : en.id = eid := hkey (eid, en) hmem
  refine ⟨?_, ?_, ?_, ?_, ?_⟩
  · rw [h2n, Jmap.keys_set_of_lookup_isSome _ _ _ (by rw [hn]; rfl)]
    exact hndn
  · rw [h2c]; exact hndc
  · intro p hp
    rw [h2n] at hp
    rcases Jmap.mem_set hndn hp with he | ⟨hm, _⟩
    · rw [he]
      simpa [hid] using hkeyen
    · exact hkey p hm
  · intro p hp
    rw [h2n] at hp
    rw [h2c]
    rcases Jmap.mem_set hndn hp with he | ⟨hm, _⟩
    · rw [he]
      simpa [hty, hcon, hkeyen] using hcomp (eid, en) hmem
    · exact hcomp p hm
  · intro q hq
    rw [h2c] at hq
    rw [h2n]
    have hold := hsound q hq
    by_cases hqe : q.2 = eid
    · rw [hqe, Jmap.lookup_set_self]
      rw [hqe, hn] at hold
      simpa [hty, hcon] using hold
    · rw [Jmap.lookup_set_ne _ _ _ _ hqe]
      exact hold

/-- `ContentInv` transfers along registration of a fresh node under a hash not
yet present in the content index. -/
theorem contentInv_of_register {g g2 : MemoryGraph} (hinv : ContentInv g)
    {nid hash : String} {node : MemoryNode}
    (hfresh : g.nodes.lookup nid = none) (hhash : g.contentIndex.lookup hash = none)
    (h2n : g2.nodes = g.nodes.set nid node) (h2c : g2.contentIndex = g.contentIndex.set hash nid)
    (hid : node.id = nid) (hh : hashContent node.type node.content = hash) :
    ContentInv g2 := by
  obtain ⟨hndn, hndc, hkey, hcomp, hsound⟩ := hinv
  refine ⟨?_, ?_, ?_, ?_, ?_⟩
  · rw [h2n]; exact Jmap.nodup_keys_set hndn nid node
  · rw [h2c]; exact Jmap.nodup_keys_set hndc hash nid
  · intro p hp
    rw [h2n] at hp
    rcases Jmap.mem_set hndn hp with he | ⟨hm, _⟩
    · rw [he]; exact hid
    · exact hkey p hm
  · intro p hp
    rw [h2n] at hp
    rw [h2c]
    rcases Jmap.mem_set hndn hp with he | ⟨hm, _⟩
    · rw [he]
      simpa [hh] using Jmap.lookup_set_self g.contentIndex hash nid
    · have hne : hashContent p.2.type p.2.content ≠ hash := by
        intro habs
        have := hcomp p hm
        rw [habs, hhash] at this
        exact absurd this (by simp)
      rw [Jmap.lookup_set_ne _ _ _ _ hne]
      exact hcomp p hm
  · intro q hq
    rw [h2c] at hq
    rw [h2n]
    rcases Jmap.mem_set hndc hq with he | ⟨hm, hne⟩
    · rw [he]
      simp only
      rw [Jmap.lookup_set_self]
      simp [hh]
    · have hold := hsound q hm
      have hqne : q.2 ≠ nid := by
        intro habs
        rw [habs, hfresh] at hold
        exact absurd hold (by simp)
      rw [Jmap.lookup_set_ne _ _ _ _ hqne]
      exact hold

/-- `ContentInv` transfers along deletion of a node together with its
content-index entry. -/
theorem contentInv_of_del {g g2 : MemoryGraph} (hinv : ContentInv g)
    {nid : String} {node : MemoryNode}
    (hn : g.nodes.lookup nid = some node)
    (h2n : g2.nodes = g.nodes.del nid)
    (h2c : g2.contentIndex = g.contentIndex.del (hashContent node.type node.content)) :
    ContentInv g2 := by
  obtain ⟨hndn, hndc, hkey, hcomp, hsound⟩ := hinv
  have hmem := Jmap.mem_of_lookup_eq_some hn
  refine ⟨?_, ?_, ?_, ?_, ?_⟩
  · rw [h2n]; exact Jmap.nodup_keys_del hndn nid
  · rw [h2c]; exact Jmap.nodup_keys_del hndc _
  · intro p hp
    rw [h2n] at hp
    exact hkey p (Jmap.mem_del hp).1
  · intro p hp
    rw [h2n] at hp
    rw [h2c]
    rcases Jmap.mem_del hp with ⟨hm, hpne⟩
    have hne : hashContent p.2.type p.2.content ≠ hashContent node.type node.content := by
      intro habs
      have h1 := hcomp p hm
      have h2 := hcomp (nid, node) hmem
      rw [habs, h2] at h1
      exact hpne (Option.some_inj.mp h1).symm
    rw [Jmap.lookup_del_ne _ _ _ hne]
    exact hcomp p hm
  · intro q hq
    rw [h2c] at hq
    rw [h2n]
    rcases Jmap.mem_del hq with ⟨hm, hqne⟩
    have hold := hsound q hm
    have hni : q.2 ≠ nid := by
      intro habs
      rw [habs, hn] at hold
      exact hqne (Option.some_inj.mp hold).symm
    rw [Jmap.lookup_del_ne _ _ _ hni]
    exact hold

/-- `ContentInv` transfers along a value map that preserves id, type and
content (decay maintenance). -/
theorem contentInv_of_mapVals {g g2 : MemoryGraph} (hinv : ContentInv g)
    {f : MemoryNode → MemoryNode}
    (hf : ∀ n, (f n).id = n.id ∧ (f n).type = n.type ∧ (f n).content = n.content)
    (h2n : g2.nodes = g.nodes.mapVals f) (h2c : g2.contentIndex = g.contentIndex) :
    ContentInv g2 := by
  obtain ⟨hndn, hndc, hkey, hcomp, hsound⟩ := hinv
  have hkeys : (g.nodes.mapVals f).keys = g.nodes.keys := by
    unfold Jmap.mapVals Jmap.keys
    rw [List.map_map]
    rfl
  refine ⟨?_, ?_, ?_, ?_, ?_⟩
  · rw [h2n, hkeys]; exact hndn
  · rw [h2c]; exact hndc
  · intro p hp
    rw [h2n] at hp
    rcases Jmap.mem_mapVals hp with ⟨q, hq, he⟩
    rw [he]
    simpa [(hf q.2).1] using hkey q hq
  · intro p hp
    rw [h2n] at hp
    rw [h2c]
    rcases Jmap.mem_mapVals hp with ⟨q, hq, he⟩
    rw [he]
    simpa [(hf q.2).2.1, (hf q.2).2.2] using hcomp q hq
  · intro q hq
    rw [h2c] at hq
    rw [h2n, Jmap.lookup_mapVals]
    have hold := hsound q hq
    cases hl : g.nodes.lookup q.2 with
    | none => rw [hl] at hold; exact absurd hold (by simp)
    | some n =>
      rw [hl] at hold
      simpa [(hf n).2.1, (hf n).2.2] using hold

/-- `ContentInv` only looks at the node table and the content index. -/
theorem contentInv_of_same {g g2 : MemoryGraph} (hinv : ContentInv g)
    (h2n : g2.nodes = g.nodes) (h2c : g2.contentIndex = g.contentIndex) : ContentInv g2 := by
  obtain ⟨hndn, hndc, hkey, hcomp, hsound⟩ := hinv
  refine ⟨?_, ?_, ?_, ?_, ?_⟩
  · rw [h2n]; exact hndn
  · rw [h2c]; exact hndc
  · intro p hp; rw [h2n] at hp; exact hkey p hp
  · intro p hp; rw [h2n] at hp; rw [h2c]; exact hcomp p hp
  · intro q hq; rw [h2c] at hq; rw [h2n]; exact hsound q hq

theorem removeEdgeInternal_nodes (g : MemoryGraph) (e : String) :
    (g.removeEdgeInternal e).nodes = g.nodes := by
  unfold removeEdgeInternal
  cases g.edges.lookup e <;> rfl

theorem removeEdgeInternal_contentIndex (g : MemoryGraph) (e : String) :
    (g.removeEdgeInternal e).contentIndex = g.contentIndex := by
  unfold removeEdgeInternal
  cases g.edges.lookup e <;> rfl

theorem removeEdgeInternal_sessions (g : MemoryGraph) (e : String) :
    (g.removeEdgeInternal e).sessions = g.sessions := by
  unfold removeEdgeInternal
  cases g.edges.lookup e <;> rfl

theorem foldRemoveEdges_nodes (l : List String) (g : MemoryGraph) :
    (l.foldl removeEdgeInternal g).nodes = g.nodes := by
  induction l generalizing g with
  | nil => rfl
  | cons a rest ih =>
    simp only [List.foldl_cons]
    rw [ih, removeEdgeInternal_nodes]

theorem foldRemoveEdges_contentIndex (l : List String) (g : MemoryGraph) :
    (l.foldl removeEdgeInternal g).contentIndex = g.contentIndex := by
  induction l generalizing g with
  | nil => rfl
  | cons a rest ih =>
    simp only [List.foldl_cons]
    rw [ih, removeEdgeInternal_contentIndex]

theorem contentInv_addNode (g : MemoryGraph) (t c : String) (arg : MetaArg)
    (nid : String) (now : Nat) (hinv : ContentInv g)
    (hfresh : g.nodes.lookup nid = none) :
    ContentInv (g.addNode t c arg nid now).2 := by
  unfold addNode
  cases hci : g.contentIndex.lookup (hashContent t c) with
  | none =>
    simp only [hci, Option.none_bind]
    exact contentInv_of_register hinv hfresh hci rfl rfl rfl rfl
  | some eid =>
    simp only [hci, Option.some_bind]
    cases hne : g.nodes.lookup eid with
    | none =>
      exfalso
      have hs := hinv.2.2.2.2 (hashContent t c, eid) (Jmap.mem_of_lookup_eq_some hci)
      simp only at hs
      rw [hne] at hs
      exact absurd hs (by simp)
    | some en =>
      simp only [hne, Option.map_some']
      refine contentInv_of_set_preserving hinv hne rfl rfl ?_ ?_ ?_
      · rw [mergeImportance_id]; rfl
      · rw [mergeImportance_type]; rfl
      · rw [mergeImportance_content]; rfl

theorem contentInv_removeNode (g : MemoryGraph) (nid : String) (now : Nat)
    (hinv : ContentInv g) : ContentInv (g.removeNode nid now).2 := by
  unfold removeNode
  cases hl : g.nodes.lookup nid with
  | none => exact hinv
  | some node =>
    refine contentInv_of_del hinv hl ?_ ?_
    · show (_ : Jmap MemoryNode).del nid = g.nodes.del nid
      rw [foldRemoveEdges_nodes, foldRemoveEdges_nodes]
    · show (_ : Jmap String).del _ = _
      rw [foldRemoveEdges_contentIndex, foldRemoveEdges_contentIndex]

theorem contentInv_updateNode (g : MemoryGraph) (nid : String) (upd : NodeUpdates)
    (now : Nat) (hinv : ContentInv g) (hc : upd.content = none) :
    ContentInv (g.updateNode nid upd now).2 := by
  unfold updateNode
  cases hl : g.nodes.lookup nid with
  | none => exact hinv
  | some node =>
    rw [hc]
    refine contentInv_of_set_preserving hinv hl rfl rfl ?_ ?_ ?_
    · cases upd.importance <;> cases upd.confidence <;> rfl
    · cases upd.importance <;> cases upd.confidence <;> rfl
    · cases upd.importance <;> cases upd.confidence <;> rfl

theorem addEdge_nodes (g : MemoryGraph) (s t ty : String) (arg : EdgeMetaArg)
    (nid : String) (now : Nat) : (g.addEdge s t ty arg nid now).2.nodes = g.nodes := by
  unfold addEdge
  split
  · rfl
  · split <;> rfl

theorem addEdge_contentIndex (g : MemoryGraph) (s t ty : String) (arg : EdgeMetaArg)
    (nid : String) (now : Nat) :
    (g.addEdge s t ty arg nid now).2.contentIndex = g.contentIndex := by
  unfold addEdge
  split
  · rfl
  · split <;> rfl

theorem endSession_nodes (g : MemoryGraph) (now : Nat) :
    (g.endSession now).nodes = g.nodes := by
  unfold endSession
  cases g.activeSession <;> rfl

theorem endSession_contentIndex (g : MemoryGraph) (now : Nat) :
    (g.endSession now).contentIndex = g.contentIndex := by
  unfold endSession
  cases g.activeSession <;> rfl

theorem startSession_nodes (g : MemoryGraph) (arg : SessionMetaArg) (nid : String)
    (now : Nat) : (g.startSession arg nid now).2.nodes = g.nodes := by
  unfold startSession
  by_cases h : g.activeSession.isSome
  · simp only [h, if_true]
    exact endSession_nodes g now
  · rw [Bool.not_eq_true] at h
    rw [h]
    rfl

theorem startSession_contentIndex (g : MemoryGraph) (arg : SessionMetaArg) (nid : String)
    (now : Nat) : (g.startSession arg nid now).2.contentIndex = g.contentIndex := by
  unfold startSession
  by_cases h : g.activeSession.isSome
  · simp only [h, if_true]
    exact endSession_contentIndex g now
  · rw [Bool.not_eq_true] at h
    rw [h]
    rfl

theorem contentInv_applyDecay (g : MemoryGraph) (amount : Rat) (hinv : ContentInv g) :
    ContentInv (g.applyDecay amount) :=
  @contentInv_of_mapVals g (g.applyDecay amount) hinv (decayStep amount)
    (fun _ => ⟨rfl, rfl, rfl⟩) rfl rfl

theorem contentInv_pruneFold (ids : List String) (now : Nat) (g : MemoryGraph)
    (hinv : ContentInv g) :
    ContentInv (ids.foldl (fun h i => (h.removeNode i now).2) g) := by
  induction ids generalizing g with
  | nil => exact hinv
  | cons a rest ih =>
    simp only [List.foldl_cons]
    exact ih _ (contentInv_removeNode g a now hinv)

theorem contentInv_new (now : Nat) : ContentInv (MemoryGraph.new now) := by
  refine ⟨?_, ?_, ?_, ?_, ?_⟩ <;> simp [MemoryGraph.new, Jmap.keys, NodesKeyed,
    ContentComplete, ContentSound]

end MemoryGraph

theorem contentInv_graphStep {g g' : MemoryGraph}
    (hinv : MemoryGraph.ContentInv g) (hstep : GraphStep false g g') :
    MemoryGraph.ContentInv g' := by
  cases hstep with
  | addNode t c arg nid now hfresh =>
    exact MemoryGraph.contentInv_addNode g t c arg nid now hinv hfresh
  | updateNode nid upd now hb =>
    rcases hb with hc | habs
    · exact MemoryGraph.contentInv_updateNode g nid upd now hinv hc
    · exact absurd habs (by simp)
  | removeNode nid now =>
    exact MemoryGraph.contentInv_removeNode g nid now hinv
  | addEdge s t ty arg eid now =>
    exact MemoryGraph.contentInv_of_same hinv
      (MemoryGraph.addEdge_nodes g s t ty arg eid now)
      (MemoryGraph.addEdge_contentIndex g s t ty arg eid now)
  | startSession arg sid now =>
    exact MemoryGraph.contentInv_of_same hinv
      (MemoryGraph.startSession_nodes g arg sid now)
      (MemoryGraph.startSession_contentIndex g arg sid now)
  | endSession now =>
    exact MemoryGraph.contentInv_of_same hinv
      (MemoryGraph.endSession_nodes g now)
      (MemoryGraph.endSession_contentIndex g now)
  | applyDecay amount =>
    exact MemoryGraph.contentInv_applyDecay g amount hinv
  | prune ids now =>
    exact MemoryGraph.contentInv_pruneFold ids now g hinv

theorem contentInv_graphReach {g : MemoryGraph} (hr : GraphReach false g) :
    MemoryGraph.ContentInv g := by
  induction hr with
  | init now => exact MemoryGraph.contentInv_new now
  | step g g' hr hs ih => exact contentInv_graphStep ih hs

-- ============================================================================
-- Claim theorems
-- ============================================================================

/-- C10: for input text that is empty or shorter than 20 characters,
`MemoryExtractor.extract` returns null and performs no graph mutation — no
node or edge is added and no session counter changes — whatever the entity
extractors would do. -/
theorem C10_extract_short_text_guard {α : Type}
    (runExtractors : MemoryGraph → String → MetaArg → α × MemoryGraph)
    (g : MemoryGraph) (text : String) (metadata : MetaArg)
    (hshort : text.length < 20) :
    MemoryExtractor.extract runExtractors g text metadata = (none, g) := by
  unfold MemoryExtractor.extract
  rw [if_pos (Or.inr hshort)]

/-- C10 witness: the guard at the concrete 2-character input `"Py"`. -/
theorem C10_extract_short_text_guard_witness :
    "Py".length < 20 ∧
    MemoryExtractor.extract c10Body (MemoryGraph.new 0) "Py" {} = (none, MemoryGraph.new 0) :=
  ⟨by decide, C10_extract_short_text_guard c10Body (MemoryGraph.new 0) "Py" {} (by decide)⟩

/-- C9: after `deleteConversation(id)`, the store's `urlToId` map contains no
entry whose value is `id`. -/
theorem C9_deleteConversation_scrubs_urlToId (store : ConvStore) (id : String) :
    ∀ p ∈ (deleteConversation store id).urlToId, p.2 ≠ id := by
  intro p hp
  rcases List.mem_filter.mp hp with ⟨_, hne⟩
  simpa using hne

/-- C9 witness: the surviving `urlToId` entry of a concrete store does not
point at the deleted conversation. -/
theorem C9_deleteConversation_scrubs_urlToId_witness :
    (("https://chatgpt.com/c/a", "c_a") ∈ (deleteConversation c9Store "c_b").urlToId) ∧
    (("https://chatgpt.com/c/a", "c_a") : String × String).2 ≠ "c_b" :=
  ⟨by decide,
   C9_deleteConversation_scrubs_urlToId c9Store "c_b" ("https://chatgpt.com/c/a", "c_a")
     (by decide)⟩

set_option maxRecDepth 200000 in
/-- C5: saving `{url: "https://chatgpt.com/c/abc", id: "tmp_x"}` and then
`{url: "https://chatgpt.com/c/abc", id: "c_abc"}` leaves `byId` with only the
record `c_abc` (no `tmp_` record), maps the normalized URL to `c_abc`, and
puts `c_abc` at the head of `order`, exactly once. -/
theorem C5_canonical_id_merge :
    c5Store.byId.keys = ["c_abc"] ∧
    c5Store.urlToId.lookup "https://chatgpt.com/c/abc" = some "c_abc" ∧
    c5Store.order = ["c_abc"] ∧
    ((c5Store.byId.lookup "c_abc").map (fun c => c.id)) = some "c_abc" := by
  refine ⟨by decide, by decide, by decide, by decide⟩

set_option maxRecDepth 200000 in
/-- C3 (code bug): `fromJSON(toJSON(G))` does not reproduce node metadata.
The node constructor called by `MemoryNode.fromJSON` overwrites `createdAt`
and `updatedAt` with the load time, `accessCount` with 0 and `lastAccessedAt`
with null, so a node with `accessCount = 1`, `createdAt = 0` comes back with
`accessCount = 0`, `createdAt = 100` when reloaded at t = 100. -/
theorem C3_roundtrip_resets_node_metadata :
    ((c3Graph.nodes.lookup "n1").map (fun n => n.metadata.accessCount)) = some 1 ∧
    ((c3Graph.nodes.lookup "n1").map (fun n => n.metadata.createdAt)) = some 0 ∧
    ((c3Graph.nodes.lookup "n1").map (fun n => n.metadata.lastAccessedAt)) = some (some 5) ∧
    (((MemoryGraph.fromJSON (MemoryGraph.toJSON c3Graph) 100).nodes.lookup "n1").map
      (fun n => n.metadata.accessCount)) = some 0 ∧
    (((MemoryGraph.fromJSON (MemoryGraph.toJSON c3Graph) 100).nodes.lookup "n1").map
      (fun n => n.metadata.createdAt)) = some 100 ∧
    (((MemoryGraph.fromJSON (MemoryGraph.toJSON c3Graph) 100).nodes.lookup "n1").map
      (fun n => n.metadata.lastAccessedAt)) = some none := by
  refine ⟨by decide, by decide, by decide, by decide, by decide, by decide⟩

theorem applyNodeData_lookup (g : MemoryGraph) (nd : MemoryNode) (now : Nat) :
    (MemorySync.applyNodeData g nd now).nodes.lookup nd.id
      = some (MemoryNode.fromJSON nd now) :=
  Jmap.lookup_set_self g.nodes nd.id (MemoryNode.fromJSON nd now)

/-- C8 (amended): `node_added` applies an absent payload, and replaces a
present node exactly when the payload's `updatedAt` is strictly newer (a tie
is a no-op); `node_updated` replaces a present node exactly when the
payload's `updatedAt` is at least as new (ties favor the incoming node), and
is a no-op when the node is absent. -/
theorem C8_remote_conflict_resolution (g : MemoryGraph) (nd : MemoryNode) (now : Nat) :
    (g.nodes.lookup nd.id = none →
      (MemorySync.handleRemoteNodeAdded g nd now).nodes.lookup nd.id
          = some (MemoryNode.fromJSON nd now) ∧
      MemorySync.handleRemoteNodeUpdated g nd now = g) ∧
    (∀ e : MemoryNode, g.nodes.lookup nd.id = some e →
      (e.metadata.updatedAt < nd.metadata.updatedAt →
        (MemorySync.handleRemoteNodeAdded g nd now).nodes.lookup nd.id
            = some (MemoryNode.fromJSON nd now)) ∧
      (nd.metadata.updatedAt ≤ e.metadata.updatedAt →
        MemorySync.handleRemoteNodeAdded g nd now = g) ∧
      (e.metadata.updatedAt ≤ nd.metadata.updatedAt →
        (MemorySync.handleRemoteNodeUpdated g nd now).nodes.lookup nd.id
            = some (MemoryNode.fromJSON nd now)) ∧
      (nd.metadata.updatedAt < e.metadata.updatedAt →
        MemorySync.handleRemoteNodeUpdated g nd now = g)) := by
  constructor
  · intro habs
    constructor
    · unfold MemorySync.handleRemoteNodeAdded
      rw [habs]
      exact applyNodeData_lookup g nd now
    · unfold MemorySync.handleRemoteNodeUpdated
      rw [habs]
  · intro e he
    refine ⟨?_, ?_, ?_, ?_⟩
    · intro hlt
      unfold MemorySync.handleRemoteNodeAdded
      rw [he]
      simp only [if_pos hlt]
      exact applyNodeData_lookup g nd now
    · intro hle
      unfold MemorySync.handleRemoteNodeAdded
      rw [he]
      simp only [if_neg (not_lt.mpr hle)]
    · intro hle
      unfold MemorySync.handleRemoteNodeUpdated
      rw [he]
      simp only [if_pos hle]
      exact applyNodeData_lookup g nd now
    · intro hlt
      unfold MemorySync.handleRemoteNodeUpdated
      rw [he]
      simp only [if_neg (not_le.mpr hlt)]

/-- C8 counterexample: a `node_updated` message for a node id absent from the
local graph is a no-op — the node is not applied — contradicting the claim
that an absent node is applied for both message types. -/
theorem C8_counterexample_update_absent_noop :
    (MemoryGraph.new 0).nodes.lookup (MemoryNode.create "topic" "rust" {} "n9" 7).id
        = none ∧
    MemorySync.handleRemoteNodeUpdated (MemoryGraph.new 0)
        (MemoryNode.create "topic" "rust" {} "n9" 7) 50 = MemoryGraph.new 0 :=
  ⟨rfl, rfl⟩

/-- C8 witness: on the concrete graph, a strictly newer `node_added` payload
replaces the stored node, and a tie-timestamped `node_updated` payload also
replaces it. -/
theorem C8_remote_conflict_resolution_witness :
    (MemorySync.handleRemoteNodeAdded c8Local c8Incoming 50).nodes.lookup c8Incoming.id
        = some (MemoryNode.fromJSON c8Incoming 50) ∧
    (MemorySync.handleRemoteNodeUpdated c8Local c8Existing 50).nodes.lookup c8Existing.id
        = some (MemoryNode.fromJSON c8Existing 50) :=
  ⟨((C8_remote_conflict_resolution c8Local c8Incoming 50).2 c8Existing (by decide)).1
      (by decide),
   ((C8_remote_conflict_resolution c8Local c8Existing 50).2 c8Existing (by decide)).2.2.1
      (by decide)⟩

theorem Jmap.mem_set_weak {α : Type} {m : Jmap α} {k : String} {v : α} {p : String × α}
    (h : p ∈ m.set k v) : p = (k, v) ∨ p ∈ m := by
  induction m with
  | nil => simp [Jmap.set] at h; exact Or.inl h
  | cons q rest ih =>
    simp only [Jmap.set] at h
    by_cases hq : q.1 = k
    · rw [if_pos hq] at h
      rcases List.mem_cons.mp h with he | hm
      · exact Or.inl he
      · exact Or.inr (List.mem_cons_of_mem _ hm)
    · rw [if_neg hq] at h
      rcases List.mem_cons.mp h with he | hm
      · exact Or.inr (he ▸ List.mem_cons_self q rest)
      · rcases ih hm with hkv | hmem
        · exact Or.inl hkv
        · exact Or.inr (List.mem_cons_of_mem _ hmem)

theorem nodesKeyed_addNode (g : MemoryGraph) (t c : String) (arg : MetaArg)
    (nid : String) (now : Nat) (hk : MemoryGraph.NodesKeyed g) :
    MemoryGraph.NodesKeyed (g.addNode t c arg nid now).2 := by
  unfold MemoryGraph.addNode
  cases hci : g.contentIndex.lookup (hashContent t c) with
  | none =>
    simp only [hci, Option.none_bind]
    intro p hp
    rcases Jmap.mem_set_weak hp with he | hm
    · rw [he]
    · exact hk p hm
  | some eid =>
    simp only [hci, Option.some_bind]
    cases hne : g.nodes.lookup eid with
    | none =>
      simp only [hne, Option.map_none']
      intro p hp
      rcases Jmap.mem_set_weak hp with he | hm
      · rw [he]
      · exact hk p hm
    | some en =>
      simp only [hne, Option.map_some']
      intro p hp
      rcases Jmap.mem_set_weak hp with he | hm
      · rw [he]
        show (MemoryGraph.mergeImportance (en.touch now) arg.importance).id = eid
        rw [MemoryGraph.mergeImportance_id]
        exact hk (eid, en) (Jmap.mem_of_lookup_eq_some hne)
      · exact hk p hm

theorem addNode_registers (g : MemoryGraph) (t c : String) (arg : MetaArg)
    (nid : String) (now : Nat) (hk : MemoryGraph.NodesKeyed g) :
    (g.addNode t c arg nid now).2.contentIndex.lookup (hashContent t c)
        = some (g.addNode t c arg nid now).1.id ∧
    (g.addNode t c arg nid now).2.nodes.lookup (g.addNode t c arg nid now).1.id
        = some (g.addNode t c arg nid now).1 := by
  unfold MemoryGraph.addNode
  cases hci : g.contentIndex.lookup (hashContent t c) with
  | none =>
    simp only [hci, Option.none_bind]
    exact ⟨Jmap.lookup_set_self _ _ _, Jmap.lookup_set_self _ _ _⟩
  | some eid =>
    simp only [hci, Option.some_bind]
    cases hne : g.nodes.lookup eid with
    | none =>
      simp only [hne, Option.map_none']
      exact ⟨Jmap.lookup_set_self _ _ _, Jmap.lookup_set_self _ _ _⟩
    | some en =>
      simp only [hne, Option.map_some']
      have hid : (MemoryGraph.mergeImportance (en.touch now) arg.importance).id = eid := by
        rw [MemoryGraph.mergeImportance_id]
        exact hk (eid, en) (Jmap.mem_of_lookup_eq_some hne)
      constructor
      · simp only [hid, hci]
      · simp only [hid]
        exact Jmap.lookup_set_self _ _ _

theorem mergeImportance_some_importance (n : MemoryNode) (i : Rat)
    (hn : 0 ≤ n.importance) :
    (MemoryGraph.mergeImportance n (some i)).importance = max n.importance i := by
  by_cases hc : i ≠ 0 ∧ n.importance < i
  · rw [show MemoryGraph.mergeImportance n (some i) = { n with importance := i } from by
      simp [MemoryGraph.mergeImportance, hc]]
    exact (max_eq_right hc.2.le).symm
  · rw [show MemoryGraph.mergeImportance n (some i) = n from by
      simp [MemoryGraph.mergeImportance, hc]]
    push_neg at hc
    by_cases h0 : i = 0
    · rw [h0]
      exact (max_eq_left hn).symm
    · exact (max_eq_left (hc h0)).symm

theorem mkRat_one_ten : (mkRat 1 10 : Rat) = 1 / 10 := by
  rw [Rat.mkRat_eq_div]
  norm_num

/-- C1: a second `addNode` with the same type and content returns the very
node the first call returned — same id, no new node (the key set of the node
table is unchanged) — increments its `accessCount` by exactly 1, raises its
decay by 0.1 clamped to 1.0, and sets its importance to the maximum of the
existing importance and the new metadata's importance. -/
theorem C1_addNode_dedup (g : MemoryGraph) (t c : String) (m1 m2 : MetaArg)
    (id1 id2 : String) (now1 now2 : Nat) (i : Rat)
    (hk : MemoryGraph.NodesKeyed g) (him : m2.importance = some i)
    (hpos : 0 ≤ (g.addNode t c m1 id1 now1).1.importance) :
    ((g.addNode t c m1 id1 now1).2.addNode t c m2 id2 now2).1.id
        = (g.addNode t c m1 id1 now1).1.id ∧
    ((g.addNode t c m1 id1 now1).2.addNode t c m2 id2 now2).2.nodes.keys
        = (g.addNode t c m1 id1 now1).2.nodes.keys ∧
    ((g.addNode t c m1 id1 now1).2.addNode t c m2 id2 now2).1.metadata.accessCount
        = (g.addNode t c m1 id1 now1).1.metadata.accessCount + 1 ∧
    ((g.addNode t c m1 id1 now1).2.addNode t c m2 id2 now2).1.decay
        = min 1 ((g.addNode t c m1 id1 now1).1.decay + 1 / 10) ∧
    ((g.addNode t c m1 id1 now1).2.addNode t c m2 id2 now2).1.importance
        = max (g.addNode t c m1 id1 now1).1.importance i := by
  obtain ⟨hcil, hnl⟩ := addNode_registers g t c m1 id1 now1 hk
  rcases hE : g.addNode t c m1 id1 now1 with ⟨n1, g1⟩
  rw [hE] at hcil hnl hpos
  dsimp only at hcil hnl hpos ⊢
  simp only [MemoryGraph.addNode, hcil, hnl, Option.some_bind, Option.map_some']
  refine ⟨?_, ?_, ?_, ?_, ?_⟩
  · rw [MemoryGraph.mergeImportance_id]
    rfl
  · exact Jmap.keys_set_of_lookup_isSome _ _ _ (by rw [hnl]; rfl)
  · rw [MemoryGraph.mergeImportance_metadata]
    rfl
  · rw [MemoryGraph.mergeImportance_decay]
    show min 1 (ratAdd n1.decay (mkRat 1 10)) = min 1 (n1.decay + 1 / 10)
    rw [ratAdd_eq, mkRat_one_ten]
  · rw [him]
    rw [mergeImportance_some_importance (n1.touch now2) i hpos]
    rfl

set_option maxRecDepth 200000 in
/-- C1 witness: the dedup law at a concrete graph and inputs. -/
theorem C1_addNode_dedup_witness :
    c1Second.1.id = c1First.1.id ∧
    c1Second.2.nodes.keys = c1First.2.nodes.keys ∧
    c1Second.1.metadata.accessCount = c1First.1.metadata.accessCount + 1 ∧
    c1Second.1.importance = max c1First.1.importance (mkRat 7 10) := by
  have h := C1_addNode_dedup (MemoryGraph.new 0) "language" "python" {}
    { importance := some (mkRat 7 10) } "n1" "n2" 1 5 (mkRat 7 10)
    (by intro p hp; simp [MemoryGraph.new] at hp) rfl (by decide)
  exact ⟨h.1, h.2.1, h.2.2.1, h.2.2.2.2⟩

/-- C4 (amended): in every graph state reachable by addNode, removeNode,
addEdge, startSession, endSession, applyDecay, prune, and updateNode calls
that do not change content, no two distinct live node entries share the same
type and content hash.  (An `updateNode` that rewrites a node's content to
that of another live node violates the invariant; see the counterexample.) -/
theorem C4_uniqueness_without_content_updates (g : MemoryGraph)
    (hr : GraphReach false g) : MemoryGraph.UniqueByTypeHash g :=
  MemoryGraph.uniqueByTypeHash_of_contentInv (contentInv_graphReach hr)

set_option maxRecDepth 400000 in
/-- C4 witness: the uniqueness invariant at a concrete reachable graph. -/
theorem C4_uniqueness_without_content_updates_witness :
    MemoryGraph.UniqueByTypeHash c4Witness :=
  C4_uniqueness_without_content_updates c4Witness
    (GraphReach.step false _ _
      (GraphReach.step false _ _
        (GraphReach.step false _ _
          (GraphReach.step false _ _
            (GraphReach.step false _ _
              (GraphReach.step false _ _
                (GraphReach.init false 0)
                (GraphStep.startSession false _ {} "s1" 1))
              (GraphStep.addNode false _ "language" "python" {} "n1" 2 (by decide)))
            (GraphStep.addNode false _ "framework" "django" {} "n2" 3 (by decide)))
          (GraphStep.addEdge false _ "n2" "n1" "part_of" {} "e1" 4))
        (GraphStep.applyDecay false _ (mkRat 1 100)))
      (GraphStep.removeNode false _ "n1" 5))

set_option maxRecDepth 400000 in
/-- C4 counterexample: the state reached by `addNode("topic","alpha")`,
`addNode("topic","beta")`, `updateNode(n2, {content:"alpha"})` is reachable by
the graph's mutation operations, yet holds two distinct live nodes with the
same type and content hash — `updateNode` overwrites the content-index entry
instead of merging, so the claimed invariant fails. -/
theorem C4_counterexample_updateNode_duplicates :
    GraphReach true c4Bad ∧ ¬ MemoryGraph.UniqueByTypeHash c4Bad :=
  ⟨GraphReach.step true _ _
    (GraphReach.step true _ _
      (GraphReach.step true _ _
        (GraphReach.init true 0)
        (GraphStep.addNode true _ "topic" "alpha" {} "n1" 1 (by decide)))
      (GraphStep.addNode true _ "topic" "beta" {} "n2" 2 (by decide)))
    (GraphStep.updateNode true _ "n2" { content := some "alpha" } 3 (Or.inr rfl)),
   by decide⟩

theorem attemptJob_attempts (j : Job) (o : WebhookOutcome) (now : Nat) :
    (attemptJob j o now).attempts = j.attempts + 1 := by
  cases o with
  | resp status text =>
    unfold attemptJob
    dsimp only
    by_cases hs : statusOk status = true
    · rw [if_pos hs]
    · rw [if_neg hs]
  | thrown msg => rfl

theorem attemptJob_fail_fields (j : Job) (o : WebhookOutcome) (now : Nat)
    (h : failingOutcome o) :
    (attemptJob j o now).status = (if j.attempts + 1 ≥ 5 then "failed" else "queued") ∧
    (attemptJob j o now).error = some (outcomeErrMsg o) ∧
    (attemptJob j o now).nextRunAt = some (now + min (60000 * (j.attempts + 1)) 600000) := by
  cases o with
  | resp status text =>
    have hs : ¬ statusOk status = true := h
    unfold attemptJob
    dsimp only
    rw [if_neg hs]
    exact ⟨rfl, rfl, rfl⟩
  | thrown msg => exact ⟨rfl, rfl, rfl⟩

theorem getLast?_mem_of_eq_some {α : Type} :
    ∀ {l : List α} {a : α}, l.getLast? = some a → a ∈ l := by
  intro l
  induction l with
  | nil => intro a h; simp at h
  | cons x rest ih =>
    intro a h
    cases rest with
    | nil =>
      have : x = a := by simpa [List.getLast?] using h
      rw [this]
      exact List.mem_cons_self a []
    | cons y r =>
      rw [List.getLast?_cons_cons] at h
      exact List.mem_cons_of_mem x (ih h)

theorem attemptAll_failures :
    ∀ (os : List (WebhookOutcome × Nat)) (j : Job),
      (∀ p ∈ os, failingOutcome p.1) → os ≠ [] →
      (attemptAll j os).attempts = j.attempts + os.length ∧
      (attemptAll j os).status = (if j.attempts + os.length ≥ 5 then "failed" else "queued") ∧
      (attemptAll j os).error = (os.getLast?).map (fun p => outcomeErrMsg p.1) := by
  intro os
  induction os with
  | nil => intro j _ hne; exact absurd rfl hne
  | cons p rest ih =>
    intro j hos hne
    have hp := hos p (List.mem_cons_self p rest)
    have hstep : attemptAll j (p :: rest) = attemptAll (attemptJob j p.1 p.2) rest := by
      simp [attemptAll]
    by_cases hr : rest = []
    · subst hr
      have hA := attemptJob_attempts j p.1 p.2
      have hF := attemptJob_fail_fields j p.1 p.2 hp
      refine ⟨?_, ?_, ?_⟩
      · rw [hstep]
        exact hA
      · rw [hstep]
        rw [show attemptAll (attemptJob j p.1 p.2) [] = attemptJob j p.1 p.2 from rfl]
        rw [hF.1]
        rfl
      · rw [hstep]
        rw [show attemptAll (attemptJob j p.1 p.2) [] = attemptJob j p.1 p.2 from rfl]
        rw [hF.2.1]
        rfl
    · obtain ⟨ha, hst, herr⟩ :=
        ih (attemptJob j p.1 p.2) (fun q hq => hos q (List.mem_cons_of_mem p hq)) hr
      refine ⟨?_, ?_, ?_⟩
      · rw [hstep, ha, attemptJob_attempts]
        simp only [List.length_cons]
        omega
      · rw [hstep, hst, attemptJob_attempts]
        simp only [List.length_cons]
        rw [show j.attempts + 1 + rest.length = j.attempts + (rest.length + 1) from by omega]
      · rw [hstep, herr]
        obtain ⟨q, rest2, rfl⟩ : ∃ q rest2, rest = q :: rest2 := by
          cases rest with
          | nil => exact absurd rfl hr
          | cons q r => exact ⟨q, r, rfl⟩
        rw [List.getLast?_cons_cons]

/-- C6: a webhook delivery attempt that gets a non-2xx response or throws
increments the job's attempt counter, schedules the retry at
`now + min(60000 · attempts, 600000)`, requeues the job while `attempts < 5`
and fails it at `attempts ≥ 5`; five consecutive failing attempts starting
from a fresh job leave it `failed` with a non-empty error string. -/
theorem C6_webhook_retry_backoff (j : Job) (o : WebhookOutcome) (now : Nat)
    (hfail : failingOutcome o) :
    ((attemptJob j o now).attempts = j.attempts + 1 ∧
     (attemptJob j o now).nextRunAt = some (now + min (60000 * (j.attempts + 1)) 600000) ∧
     (attemptJob j o now).status = (if j.attempts + 1 ≥ 5 then "failed" else "queued") ∧
     (attemptJob j o now).error = some (outcomeErrMsg o)) ∧
    (∀ os : List (WebhookOutcome × Nat), j.attempts = 0 → os.length = 5 →
      (∀ p ∈ os, failingOutcome p.1 ∧ outcomeErrMsg p.1 ≠ "") →
      (attemptAll j os).status = "failed" ∧
      ∃ s : String, (attemptAll j os).error = some s ∧ s ≠ "") := by
  constructor
  · have hA := attemptJob_attempts j o now
    have hF := attemptJob_fail_fields j o now hfail
    exact ⟨hA, hF.2.2, hF.1, hF.2.1⟩
  · intro os h0 h5 hos
    have hne : os ≠ [] := by
      intro habs
      rw [habs] at h5
      simp at h5
    obtain ⟨_, hst, herr⟩ := attemptAll_failures os j (fun p hp => (hos p hp).1) hne
    rw [h0, h5] at hst
    constructor
    · rw [hst]
      rfl
    · cases hl : os.getLast? with
      | none =>
        have hns : os.getLast?.isSome := List.getLast?_isSome.mpr hne
        rw [hl] at hns
        exact absurd hns (by simp)
      | some plast =>
        refine ⟨outcomeErrMsg plast.1, ?_, (hos plast (getLast?_mem_of_eq_some hl)).2⟩
        rw [herr, hl]
        rfl

/-- C6 witness: the backoff law and the five-failure law at concrete inputs. -/
theorem C6_webhook_retry_backoff_witness :
    ((attemptJob c6Job (.resp 500 "oops") 10).attempts = c6Job.attempts + 1 ∧
     (attemptJob c6Job (.resp 500 "oops") 10).nextRunAt
        = some (10 + min (60000 * (c6Job.attempts + 1)) 600000) ∧
     (attemptJob c6Job (.resp 500 "oops") 10).status
        = (if c6Job.attempts + 1 ≥ 5 then "failed" else "queued") ∧
     (attemptJob c6Job (.resp 500 "oops") 10).error
        = some (outcomeErrMsg (.resp 500 "oops"))) ∧
    ((attemptAll c6Job c6Fails).status = "failed" ∧
     ∃ s : String, (attemptAll c6Job c6Fails).error = some s ∧ s ≠ "") :=
  ⟨(C6_webhook_retry_backoff c6Job (.resp 500 "oops") 10 (by decide)).1,
   (C6_webhook_retry_backoff c6Job (.resp 500 "oops") 10 (by decide)).2 c6Fails rfl rfl
     (by decide)⟩

set_option maxRecDepth 400000 in
/-- C7 counterexample: the conversation whose only "django" occurrence is a
tag is missing from the result — the candidate filter requires a token hit in
the title/url/text haystack and never inspects tags — so the claimed
A > B > C ranking over all three is impossible. -/
theorem C7_counterexample_tag_only_excluded :
    ((listConversations c7Store "django" 200 {} "relevance" 0).map
      (fun c => c.id)).contains "B" = false := by
  decide

set_option maxRecDepth 400000 in
/-- C7 (amended): over the three conversations, `list_conversations` with
query "django" and relevance sort returns exactly A then C: B is excluded by
the token-hit candidate filter (which scans only title, url and text), and A
(title phrase + token + word-start bonuses) ranks strictly above C (text
phrase + token + word-start bonuses). -/
theorem C7_search_ranking_amended :
    (listConversations c7Store "django" 200 {} "relevance" 0).map (fun c => c.id)
      = ["A", "C"] := by
  decide

theorem Jmap.mem_del_of_mem {α : Type} {m : Jmap α} {k : String} {p : String × α}
    (h : p ∈ m) (hne : p.1 ≠ k) : p ∈ m.del k := by
  induction m with
  | nil => simp at h
  | cons q rest ih =>
    simp only [Jmap.del]
    rcases List.mem_cons.mp h with he | hm
    · rw [if_neg (he ▸ hne)]
      exact he ▸ List.mem_cons_self q _
    · by_cases hq : q.1 = k
      · rw [if_pos hq]
        exact ih hm
      · rw [if_neg hq]
        exact List.mem_cons_of_mem _ (ih hm)

theorem mem_edges_removeEdgeInternal {g : MemoryGraph} {e : String}
    {p : String × MemoryEdge} :
    p ∈ (g.removeEdgeInternal e).edges ↔ p ∈ g.edges ∧ p.1 ≠ e := by
  unfold MemoryGraph.removeEdgeInternal
  cases hl : g.edges.lookup e with
  | none =>
    constructor
    · intro h
      refine ⟨h, fun habs => ?_⟩
      have hs := Jmap.isSome_lookup_of_mem h
      rw [habs, hl] at hs
      exact absurd hs (by simp)
    · exact fun h => h.1
  | some edge =>
    dsimp only
    constructor
    · exact Jmap.mem_del
    · exact fun h => Jmap.mem_del_of_mem h.1 h.2

theorem mem_edges_foldRemove :
    ∀ (l : List String) (g : MemoryGraph) (p : String × MemoryEdge),
      p ∈ (l.foldl MemoryGraph.removeEdgeInternal g).edges ↔ p ∈ g.edges ∧ p.1 ∉ l := by
  intro l
  induction l with
  | nil =>
    intro g p
    simp
  | cons a rest ih =>
    intro g p
    simp only [List.foldl_cons]
    rw [ih, mem_edges_removeEdgeInternal]
    constructor
    · rintro ⟨⟨hm, hne⟩, hnl⟩
      refine ⟨hm, ?_⟩
      simp only [List.mem_cons, not_or]
      exact ⟨hne, hnl⟩
    · rintro ⟨hm, hnl⟩
      simp only [List.mem_cons, not_or] at hnl
      exact ⟨⟨hm, hnl.1⟩, hnl.2⟩

theorem removeEdgeInternal_nodesByType (g : MemoryGraph) (e : String) :
    (g.removeEdgeInternal e).nodesByType = g.nodesByType := by
  unfold MemoryGraph.removeEdgeInternal
  cases g.edges.lookup e <;> rfl

theorem foldRemoveEdges_nodesByType (l : List String) (g : MemoryGraph) :
    (l.foldl MemoryGraph.removeEdgeInternal g).nodesByType = g.nodesByType := by
  induction l generalizing g with
  | nil => rfl
  | cons a rest ih =>
    simp only [List.foldl_cons]
    rw [ih, removeEdgeInternal_nodesByType]

theorem foldRemoveEdges_sessions (l : List String) (g : MemoryGraph) :
    (l.foldl MemoryGraph.removeEdgeInternal g).sessions = g.sessions := by
  induction l generalizing g with
  | nil => rfl
  | cons a rest ih =>
    simp only [List.foldl_cons]
    rw [ih, MemoryGraph.removeEdgeInternal_sessions]

theorem removeNode_absent (h : MemoryGraph) (x : String) (now2 : Nat)
    (hn : h.nodes.lookup x = none) : h.removeNode x now2 = (false, h) := by
  unfold MemoryGraph.removeNode
  rw [hn]

/-- C2: removing a live node deletes every incident edge (bidirectional ones
included), every session reference, and its content- and type-index entries;
a second `removeNode` on the result returns `false` and leaves the graph
unchanged. -/
theorem C2_removeNode_cleanup (g : MemoryGraph) (nid : String) (now : Nat)
    (hw : MemoryGraph.WellFormed g) (hp : (g.nodes.lookup nid).isSome) :
    (g.removeNode nid now).1 = true ∧
    (∀ p ∈ (g.removeNode nid now).2.edges, p.2.sourceId ≠ nid ∧ p.2.targetId ≠ nid) ∧
    (∀ q ∈ (g.removeNode nid now).2.sessions, nid ∉ q.2.nodeIds) ∧
    (∀ q ∈ (g.removeNode nid now).2.contentIndex, q.2 ≠ nid) ∧
    (∀ q ∈ (g.removeNode nid now).2.nodesByType, nid ∉ q.2) ∧
    (∀ now2 : Nat, (g.removeNode nid now).2.removeNode nid now2
        = (false, (g.removeNode nid now).2)) := by
  obtain ⟨hci, hei, hts, hbt⟩ := hw
  cases hE : g.nodes.lookup nid with
  | none =>
    rw [hE] at hp
    exact absurd hp (by simp)
  | some node =>
    refine ⟨?_, ?_, ?_, ?_, ?_, ?_⟩
    · simp only [MemoryGraph.removeNode, hE]
    · intro p hp2
      simp only [MemoryGraph.removeNode, hE] at hp2
      rw [mem_edges_foldRemove] at hp2
      obtain ⟨hp3, hnin⟩ := hp2
      rw [mem_edges_foldRemove] at hp3
      obtain ⟨hpg, hnout⟩ := hp3
      constructor
      · intro habs
        have hx := (hei p hpg).1
        rw [habs] at hx
        exact hnout hx
      · intro habs
        have hx := (hei p hpg).2
        rw [habs] at hx
        exact hnin hx
    · intro q hq
      simp only [MemoryGraph.removeNode, hE] at hq
      rw [foldRemoveEdges_sessions, foldRemoveEdges_sessions] at hq
      rcases Jmap.mem_mapVals hq with ⟨r, _, he⟩
      rw [he]
      exact Jset.not_mem_remove _ _
    · intro q hq
      simp only [MemoryGraph.removeNode, hE] at hq
      rw [MemoryGraph.foldRemoveEdges_contentIndex,
        MemoryGraph.foldRemoveEdges_contentIndex] at hq
      obtain ⟨hm, hne⟩ := Jmap.mem_del hq
      intro habs
      have hsound := hci.2.2.2.2 q hm
      rw [habs, hE] at hsound
      exact hne (Option.some_inj.mp hsound).symm
    · intro q hq
      simp only [MemoryGraph.removeNode, hE] at hq
      rw [foldRemoveEdges_nodesByType, foldRemoveEdges_nodesByType] at hq
      cases hbty : g.nodesByType.lookup node.type with
      | some s =>
        rw [hbty] at hq
        rcases Jmap.mem_set hbt hq with he | ⟨hm, hne⟩
        · rw [he]
          exact Jset.not_mem_remove _ _
        · intro habs
          have h1 := hts q hm nid habs
          rw [hE] at h1
          exact hne (Option.some_inj.mp h1).symm
      | none =>
        rw [hbty] at hq
        change q ∈ g.nodesByType at hq
        intro habs
        have h1 := hts q hq nid habs
        rw [hE] at h1
        have h2 := Jmap.isSome_lookup_of_mem hq
        have h1' : node.type = q.1 := Option.some_inj.mp h1
        rw [h1'] at hbty
        rw [hbty] at h2
        exact absurd h2 (by simp)
    · intro now2
      have hnone : (g.removeNode nid now).2.nodes.lookup nid = none := by
        simp only [MemoryGraph.removeNode, hE]
        rw [MemoryGraph.foldRemoveEdges_nodes, MemoryGraph.foldRemoveEdges_nodes]
        exact Jmap.lookup_del_self g.nodes nid
      exact removeNode_absent _ nid now2 hnone

set_option maxRecDepth 400000 in
/-- C2 witness: removal succeeds on a concrete well-formed graph and a second
removal is a no-op. -/
theorem C2_removeNode_cleanup_witness :
    (c2Graph.removeNode "n1" 9).1 = true ∧
    (c2Graph.removeNode "n1" 9).2.removeNode "n1" 10
        = (false, (c2Graph.removeNode "n1" 9).2) :=
  ⟨(C2_removeNode_cleanup c2Graph "n1" 9 (by decide) (by decide)).1,
   (C2_removeNode_cleanup c2Graph "n1" 9 (by decide) (by decide)).2.2.2.2.2 10⟩
